import Mathlib

/-!
Verification development for the lexical front end of the pdf4py PDF reader
(`pdfpy/_charset.py` and `pdfpy/_lexer.py`).

The Python code is shallowly embedded: bytes are `Nat`s (< 256 on real
inputs), byte buffers are `List Nat`, the mutable `Seekable` cursor and
`Lexer` objects become records threaded through every operation, and Python
exceptions become an `Err`-valued `Except` paired with the state at the
raise point (a raised exception leaves the mutated object behind, so the
state is always returned).  `while` loops are compiled to fuel-indexed
structural recursion; the fuel passed by the entry points
(`buffer length + 2`) is provably sufficient for every loop except the
outer loop of `seekable_rfind`, which can genuinely diverge.  Error
messages and the diagnostic-context builder are elided: `__raise_lexer_error`
restores the cursor position it reads, so its net effect on the lexer state
is `Err.lexical` with the state unchanged.
-/

/-! ## Character constants (`_charset.py`) -/

def LINE_FEED : Nat := 10
def HORIZONTAL_TAB : Nat := 9
def FORM_FEED : Nat := 12
def BACKSPACE : Nat := 8
def CARRIAGE_RETURN : Nat := 13
def OPEN_PARENTHESIS : Nat := 40
def CLOSE_PARENTHESIS : Nat := 41
def OPEN_ANGLE_BRACKET : Nat := 60
def CLOSE_ANGLE_BRACKET : Nat := 62
def OPEN_SQUARE_BRACKET : Nat := 91
def CLOSE_SQUARE_BRACKET : Nat := 93
def FORWARD_SLASH : Nat := 47
def BACK_SLASH : Nat := 92
def OPEN_CURLY_BRACKET : Nat := 123
def CLOSE_CURLY_BRAKET : Nat := 125
def PERCENTAGE : Nat := 37
def POINT : Nat := 46
def PLUS : Nat := 43
def MINUS : Nat := 45
def KEYWORD_REFERENCE : Nat := 82
def FREE_ENTRY_KEYWORD : Nat := 102
def INUSE_ENTRY_KEYWORD : Nat := 110
def NUMBER_SIGN : Nat := 35

/-- `SINGLETONS`: one-character lexemes. -/
def SINGLETONS : List Nat :=
  [OPEN_CURLY_BRACKET, CLOSE_CURLY_BRAKET, OPEN_SQUARE_BRACKET,
   CLOSE_SQUARE_BRACKET, INUSE_ENTRY_KEYWORD, FREE_ENTRY_KEYWORD,
   KEYWORD_REFERENCE]

/-- `KEYWORDS` in source order: `<<, >>, endobj, obj, trailer, xref, null,
startxref, endstream` as byte strings. -/
def KEYWORDS : List (List Nat) :=
  [[60, 60], [62, 62],
   [101, 110, 100, 111, 98, 106],
   [111, 98, 106],
   [116, 114, 97, 105, 108, 101, 114],
   [120, 114, 101, 102],
   [110, 117, 108, 108],
   [115, 116, 97, 114, 116, 120, 114, 101, 102],
   [101, 110, 100, 115, 116, 114, 101, 97, 109]]

def is_digit (x : Nat) : Bool := 48 ≤ x && x < 58

def is_hex_digit (x : Nat) : Bool :=
  (48 ≤ x && x < 58) || (65 ≤ x && x < 71) || (97 ≤ x && x < 103)

/-- `hex_to_number`; the Python `ValueError` becomes `none`. -/
def hex_to_number (x : Nat) : Option Nat :=
  if 48 ≤ x && x < 58 then some (x - 48)
  else if 65 ≤ x && x < 71 then some (x - 55)
  else if 97 ≤ x && x < 103 then some (x - 87)
  else none

/-- `STRING_ESCAPE_SEQUENCES.get(b, b)`: the escape-letter table with the
byte itself as default. -/
def STRING_ESCAPE_SEQUENCES (b : Nat) : Nat :=
  if b = 110 then LINE_FEED
  else if b = 114 then CARRIAGE_RETURN
  else if b = 98 then BACKSPACE
  else if b = 116 then HORIZONTAL_TAB
  else if b = 102 then FORM_FEED
  else b

def BLANKS : List Nat := [0x00, 0x09, 0x0A, 0x0C, 0x0D, 0x20]

/-! ## The byte cursor (`class Seekable`) -/

structure Seekable where
  source : List Nat
  pos : Nat
deriving DecidableEq, Repr, Inhabited

/-- `Seekable(obj)` over a byte buffer: position 0.  (The Python
`isinstance` check is enforced here by the type.) -/
def Seekable.ofBytes (b : List Nat) : Seekable := ⟨b, 0⟩

/-- `Seekable.read(n)`: empty at end of buffer; `n == 1` is the optimized
single-byte case; otherwise `n <= 0` is replaced by the total length and a
slice is taken, advancing by the number of bytes actually returned. -/
def Seekable.read (s : Seekable) (n : Int) : List Nat × Seekable :=
  if s.pos = s.source.length then ([], s)
  else if n = 1 then
    ([s.source.getD s.pos 0], { s with pos := s.pos + 1 })
  else
    let m : Nat := if n ≤ 0 then s.source.length else n.toNat
    let val := (s.source.drop s.pos).take m
    (val, { s with pos := s.pos + val.length })

/-- `Seekable.seek(off, whence)`: origin 0 = absolute, 1 = relative,
anything else = end-relative; the result is clamped into `[0, length]`. -/
def Seekable.seek (s : Seekable) (off : Int) (whence : Nat) : Seekable :=
  let p : Int :=
    if whence = 0 then off
    else if whence = 1 then (s.pos : Int) + off
    else (s.source.length : Int) + off
  let p : Int := if p < 0 then 0 else p
  let p : Int :=
    if p > (s.source.length : Int) then (s.source.length : Int) else p
  { s with pos := p.toNat }

def Seekable.tell (s : Seekable) : Nat := s.pos

/-- One cursor operation, for stating properties of arbitrary operation
sequences (`tell` is read-only). -/
inductive CursorOp where
  | read (n : Int)
  | seek (off : Int) (whence : Nat)
  | tell
deriving DecidableEq, Repr

def applyOp (s : Seekable) : CursorOp → Seekable
  | .read n => (s.read n).2
  | .seek off whence => s.seek off whence
  | .tell => s

/-! ## Lexemes and errors -/

/-- The lexeme variants produced by `Lexer.__next__`.  Python's `float`
result for reals is kept as the raw digit buffer (floating point is not
modelled; no claim depends on the numeric value of a real).  The deferred
stream-read closure is represented by the captured byte offset, consumed by
`read_stream` below. -/
inductive Lexeme where
  | int (value : Int)
  | real (raw : List Nat)
  | bool (value : Bool)
  | str (codepoints : List Nat)
  | name (value : List Nat)
  | keyword (value : List Nat)
  | hexString (value : List Nat)
  | singleton (value : Nat)
  | streamReader (streamPos : Nat)
deriving DecidableEq, Repr, Inhabited

/-- The exceptions the lexer code can raise: `StopIteration`,
`PDFLexicalError` (message elided), `IndexError`, `NameError` (unbound
local `c` in `seekable_rfind`), the bare `Exception` of `move_back` on an
empty history, `ValueError`, `UnicodeDecodeError`, and the out-of-fuel
sentinel of the embedding (never returned by a sufficiently fuelled run). -/
inductive Err where
  | stop
  | lexical
  | index
  | name
  | noHistory
  | value
  | decode
  | fuel
deriving DecidableEq, Repr

/-! ## Lexer state (`Lexer.__init__` fields) -/

structure LexState where
  source : Seekable
  length : Nat
  current : Nat
  lexemesBuffer : List Lexeme
  movesHistory : List (Option Lexeme × Nat)
  contextSize : Nat
  ended : Bool
  currentLexeme : Option Lexeme
deriving DecidableEq, Repr, Inhabited

/-- `Lexer.__init__(source)` over a byte buffer (`contextSize` fixed at its
default 200): measure the length through seek/tell, restore the position,
then preload one byte with `read(1)[0]` — which raises `IndexError` on an
empty buffer, since `read` returns the empty slice there. -/
def lexerInit (b : List Nat) : Except Err LexState :=
  let src := Seekable.ofBytes b
  let cpos := src.tell
  let src := src.seek 0 2
  let length := src.tell
  let src := src.seek (cpos : Int) 0
  let (val, src) := src.read 1
  match val with
  | [] => .error .index
  | c :: _ =>
    .ok { source := src, length := length, current := c, lexemesBuffer := [],
          movesHistory := [], contextSize := 200, ended := false,
          currentLexeme := none }

/-- Total variant of `lexerInit` for building concrete test states. -/
def lexerInitD (b : List Nat) : LexState :=
  match lexerInit b with
  | .ok s => s
  | .error _ => default

/-- `Lexer.__advance`: raise `StopIteration` if already ended, else read one
byte; an empty read synthesizes the blank sentinel `b' '[0] = 32` and sets
`ended`. -/
def advance (s : LexState) : Except Err Unit × LexState :=
  if s.ended then (.error .stop, s)
  else
    let (val, src) := s.source.read 1
    match val with
    | [] => (.ok (), { s with source := src, current := 32, ended := true })
    | c :: _ => (.ok (), { s with source := src, current := c })

/-- `Lexer.current_lexeme` property: raises `StopIteration` when ended. -/
def current_lexeme (s : LexState) : Except Err (Option Lexeme) × LexState :=
  if s.ended then (.error .stop, s) else (.ok s.currentLexeme, s)

/-- `Lexer.__peek(k)`: look at the byte `k - 1` past the cursor without
consuming (the lookahead byte itself is `__peek(0)`), restoring the cursor;
`none` when that byte would lie at or beyond the measured length. -/
def peek (k : Int) (s : LexState) : Option Nat × LexState :=
  if (s.source.tell : Int) + (k - 1) ≥ (s.length : Int) then (none, s)
  else
    (some ((((s.source.seek (k - 1) 1).read 1).1).headD 0),
     { s with source :=
        (((s.source.seek (k - 1) 1).read 1).2).seek (s.source.tell : Int) 0 })

/-! ## Tokenizer loops (`while` loops as fuel-indexed recursion)

Every entry point passes fuel `length + 2`, which the sufficiency lemmas
below show exceeds the number of loop iterations any reachable state can
perform (each iteration consumes at least one input byte or terminates). -/

/-- The `while self.__current != LINE_FEED: self.__advance()` loop inside the
comment branch of `Lexer.__remove_blanks`. -/
def skipCommentLoop : Nat → LexState → Except Err Unit × LexState
  | 0, s => (.error .fuel, s)
  | fuel + 1, s =>
    if s.current ≠ LINE_FEED then
      match advance s with
      | (.error e, s') => (.error e, s')
      | (.ok _, s') => skipCommentLoop fuel s'
    else (.ok (), s)

/-- `Lexer.__remove_blanks`: skip blanks; on `%` skip the comment through
its line feed; stop at the first other byte. -/
def removeBlanksLoop : Nat → LexState → Except Err Unit × LexState
  | 0, s => (.error .fuel, s)
  | fuel + 1, s =>
    if s.current ∈ BLANKS then
      match advance s with
      | (.error e, s') => (.error e, s')
      | (.ok _, s') => removeBlanksLoop fuel s'
    else if s.current = PERCENTAGE then
      match skipCommentLoop (s.length + 2) s with
      | (.error e, s') => (.error e, s')
      | (.ok _, s') =>
        match advance s' with
        | (.error e, s'') => (.error e, s'')
        | (.ok _, s'') => removeBlanksLoop fuel s''
    else (.ok (), s)

def remove_blanks (s : LexState) : Except Err Unit × LexState :=
  removeBlanksLoop (s.length + 2) s

/-- The octal-digit collection loop of `Lexer.__parse_string_literal`
(`while is_digit(current) and len(digits) < 3`); the remaining digit budget
is the recursion argument. -/
def octalRun : Nat → List Nat → LexState → Except Err (List Nat) × LexState
  | 0, acc, s => (.ok acc, s)
  | budget + 1, acc, s =>
    if is_digit s.current then
      match advance s with
      | (.error e, s') => (.error e, s')
      | (.ok _, s') => octalRun budget (acc ++ [s.current]) s'
    else (.ok acc, s)

/-- `charCode = sum(int(x) << 3*(len(digits)-i-1) ...)`: the collected ASCII
digits combined base 8, most significant first. -/
def octalValue (digits : List Nat) : Nat :=
  digits.foldl (fun acc d => acc * 8 + (d - 48)) 0

/-- The balanced-parentheses scan of `Lexer.__parse_string_literal`.  `(`
and `)` adjust the nesting depth and are copied (the final `)` is popped by
the wrapper); a backslash before a non-digit copies the mapped escape byte;
a backslash before a digit starts an up-to-3-digit octal escape whose value
is appended (`bytearray.append` raises `ValueError` above 255). -/
def parseStrLoop : Nat → Nat → List Nat → LexState →
    Except Err (List Nat) × LexState
  | 0, _, _, s => (.error .fuel, s)
  | fuel + 1, openParentheses, buffer, s =>
    if openParentheses = 0 then (.ok buffer, s)
    else if s.current = OPEN_PARENTHESIS then
      match advance s with
      | (.error e, s') => (.error e, s')
      | (.ok _, s') =>
        parseStrLoop fuel (openParentheses + 1) (buffer ++ [OPEN_PARENTHESIS]) s'
    else if s.current = CLOSE_PARENTHESIS then
      match advance s with
      | (.error e, s') => (.error e, s')
      | (.ok _, s') =>
        parseStrLoop fuel (openParentheses - 1) (buffer ++ [CLOSE_PARENTHESIS]) s'
    else if s.current = BACK_SLASH then
      match advance s with
      | (.error e, s') => (.error e, s')
      | (.ok _, s1) =>
        if ¬ is_digit s1.current then
          let mapped := STRING_ESCAPE_SEQUENCES s1.current
          match advance s1 with
          | (.error e, s') => (.error e, s')
          | (.ok _, s2) => parseStrLoop fuel openParentheses (buffer ++ [mapped]) s2
        else
          match octalRun 3 [] s1 with
          | (.error e, s') => (.error e, s')
          | (.ok digits, s2) =>
            let charCode := octalValue digits
            if 256 ≤ charCode then (.error .value, s2)
            else parseStrLoop fuel openParentheses (buffer ++ [charCode]) s2
    else
      match advance s with
      | (.error e, s') => (.error e, s')
      | (.ok _, s') => parseStrLoop fuel openParentheses (buffer ++ [s.current]) s'

/-! ### String decoding: `buffer.decode('utf-8')` with `cp1252` fallback -/

/-- Strict UTF-8 decoding to code points, as Python's `utf-8` codec:
rejects stray continuation bytes, overlong forms, surrogates and values
above U+10FFFF. -/
def utf8Decode : List Nat → Option (List Nat)
  | [] => some []
  | b :: rest =>
    if b < 0x80 then (utf8Decode rest).map (b :: ·)
    else if b < 0xC2 then none
    else if b < 0xE0 then
      match rest with
      | c1 :: rest =>
        if 0x80 ≤ c1 && c1 < 0xC0 then
          (utf8Decode rest).map ((b % 32 * 64 + c1 % 64) :: ·)
        else none
      | _ => none
    else if b < 0xF0 then
      match rest with
      | c1 :: c2 :: rest =>
        if (0x80 ≤ c1 && c1 < 0xC0) && (0x80 ≤ c2 && c2 < 0xC0)
            && !(b = 0xE0 && c1 < 0xA0) && !(b = 0xED && 0xA0 ≤ c1) then
          (utf8Decode rest).map ((b % 16 * 4096 + c1 % 64 * 64 + c2 % 64) :: ·)
        else none
      | _ => none
    else if b < 0xF5 then
      match rest with
      | c1 :: c2 :: c3 :: rest =>
        if (0x80 ≤ c1 && c1 < 0xC0) && (0x80 ≤ c2 && c2 < 0xC0)
            && (0x80 ≤ c3 && c3 < 0xC0) && !(b = 0xF0 && c1 < 0x90)
            && !(b = 0xF4 && 0x90 ≤ c1) then
          (utf8Decode rest).map
            ((b % 8 * 262144 + c1 % 64 * 4096 + c2 % 64 * 64 + c3 % 64) :: ·)
        else none
      | _ => none
    else none

/-- The Windows-1252 mapping on the defined bytes: identity outside
`0x80..0x9F`, the table inside it. -/
def cp1252Table (b : Nat) : Nat :=
  if b = 0x80 then 0x20AC
  else if b = 0x82 then 0x201A
  else if b = 0x83 then 0x0192
  else if b = 0x84 then 0x201E
  else if b = 0x85 then 0x2026
  else if b = 0x86 then 0x2020
  else if b = 0x87 then 0x2021
  else if b = 0x88 then 0x02C6
  else if b = 0x89 then 0x2030
  else if b = 0x8A then 0x0160
  else if b = 0x8B then 0x2039
  else if b = 0x8C then 0x0152
  else if b = 0x8E then 0x017D
  else if b = 0x91 then 0x2018
  else if b = 0x92 then 0x2019
  else if b = 0x93 then 0x201C
  else if b = 0x94 then 0x201D
  else if b = 0x95 then 0x2022
  else if b = 0x96 then 0x2013
  else if b = 0x97 then 0x2014
  else if b = 0x98 then 0x02DC
  else if b = 0x99 then 0x2122
  else if b = 0x9A then 0x0161
  else if b = 0x9B then 0x203A
  else if b = 0x9C then 0x0153
  else if b = 0x9E then 0x017E
  else if b = 0x9F then 0x0178
  else b

/-- Python's `cp1252` codec on one byte: undefined (`UnicodeDecodeError`)
at exactly `0x81, 0x8D, 0x8F, 0x90, 0x9D`, the table value otherwise. -/
def cp1252Byte (b : Nat) : Option Nat :=
  if b = 0x81 ∨ b = 0x8D ∨ b = 0x8F ∨ b = 0x90 ∨ b = 0x9D then none
  else some (cp1252Table b)

def cp1252Decode : List Nat → Option (List Nat)
  | [] => some []
  | b :: rest =>
    match cp1252Byte b with
    | none => none
    | some c => (cp1252Decode rest).map (c :: ·)

/-- `try: buffer.decode('utf-8') except UnicodeDecodeError:
buffer.decode('cp1252')` — the cp1252 failure is NOT caught. -/
def decodeLiteral (buffer : List Nat) : Option (List Nat) :=
  match utf8Decode buffer with
  | some r => some r
  | none => cp1252Decode buffer

/-- `Lexer.__parse_string_literal`: consume the opening parenthesis, scan
the balanced literal, pop the final `)`, then decode. -/
def parse_string_literal (s : LexState) : Except Err Lexeme × LexState :=
  match advance s with
  | (.error e, s') => (.error e, s')
  | (.ok _, s1) =>
    match parseStrLoop (s1.length + 2) 1 [] s1 with
    | (.error e, s') => (.error e, s')
    | (.ok buffer, s2) =>
      match decodeLiteral buffer.dropLast with
      | none => (.error .decode, s2)
      | some cps => (.ok (.str cps), s2)

/-- The digit-collection loop of `Lexer.__parse_hexadecimal_string`:
blanks are skipped, hex digits collected, anything else stops the loop. -/
def parseHexLoop : Nat → List Nat → LexState → Except Err (List Nat) × LexState
  | 0, _, s => (.error .fuel, s)
  | fuel + 1, buffer, s =>
    if s.current ∈ BLANKS then
      match advance s with
      | (.error e, s') => (.error e, s')
      | (.ok _, s') => parseHexLoop fuel buffer s'
    else if ¬ is_hex_digit s.current then (.ok buffer, s)
    else
      match advance s with
      | (.error e, s') => (.error e, s')
      | (.ok _, s') => parseHexLoop fuel (buffer ++ [s.current]) s'

/-- `Lexer.__parse_hexadecimal_string`: after the loop the stopping byte
must be `>` or a lexical error is raised. -/
def parse_hexadecimal_string (s : LexState) : Except Err Lexeme × LexState :=
  match advance s with
  | (.error e, s') => (.error e, s')
  | (.ok _, s1) =>
    match parseHexLoop (s1.length + 2) [] s1 with
    | (.error e, s') => (.error e, s')
    | (.ok buffer, s2) =>
      if s2.current ≠ CLOSE_ANGLE_BRACKET then (.error .lexical, s2)
      else
        match advance s2 with
        | (.error e, s') => (.error e, s')
        | (.ok _, s3) => (.ok (.hexString buffer), s3)

/-- The body loop of `Lexer.__parse_name`: printable bytes are copied,
`#` starts a two-hex-digit escape (a non-hex digit is a lexical error via
the caught `ValueError`). -/
def parseNameLoop : Nat → List Nat → LexState → Except Err (List Nat) × LexState
  | 0, _, s => (.error .fuel, s)
  | fuel + 1, buffer, s =>
    if 33 ≤ s.current ∧ s.current ≤ 126 then
      if s.current = NUMBER_SIGN then
        match advance s with
        | (.error e, s') => (.error e, s')
        | (.ok _, s1) =>
          match hex_to_number s1.current with
          | none => (.error .lexical, s1)
          | some hexDigit1 =>
            match advance s1 with
            | (.error e, s') => (.error e, s')
            | (.ok _, s2) =>
              match hex_to_number s2.current with
              | none => (.error .lexical, s2)
              | some hexDigit2 =>
                match advance s2 with
                | (.error e, s') => (.error e, s')
                | (.ok _, s3) =>
                  parseNameLoop fuel (buffer ++ [hexDigit1 * 16 + hexDigit2]) s3
      else
        match advance s with
        | (.error e, s') => (.error e, s')
        | (.ok _, s') => parseNameLoop fuel (buffer ++ [s.current]) s'
    else (.ok buffer, s)

/-- `Lexer.__parse_name`: skip the `/`, run the loop, then
`buffer.decode('ascii')` (a byte ≥ 128, reachable only through `#`-escapes,
raises `UnicodeDecodeError`). -/
def parse_name (s : LexState) : Except Err Lexeme × LexState :=
  match advance s with
  | (.error e, s') => (.error e, s')
  | (.ok _, s1) =>
    match parseNameLoop (s1.length + 2) [] s1 with
    | (.error e, s') => (.error e, s')
    | (.ok buffer, s2) =>
      if buffer.all (· < 128) then (.ok (.name buffer), s2)
      else (.error .decode, s2)

/-- A `while is_digit(current)` run, appending to the buffer. -/
def digitRun : Nat → List Nat → LexState → Except Err (List Nat) × LexState
  | 0, _, s => (.error .fuel, s)
  | fuel + 1, buffer, s =>
    if is_digit s.current then
      match advance s with
      | (.error e, s') => (.error e, s')
      | (.ok _, s') => digitRun fuel (buffer ++ [s.current]) s'
    else (.ok buffer, s)

/-- `int(buff.decode())` on an optional sign plus digits; `none` models
the `ValueError` Python raises on an empty or sign-only buffer. -/
def bytesToInt : List Nat → Option Int
  | [] => none
  | 43 :: rest =>
    if rest = [] then none
    else some (rest.foldl (fun acc d => acc * 10 + ((d : Int) - 48)) 0)
  | 45 :: rest =>
    if rest = [] then none
    else some (-(rest.foldl (fun acc d => acc * 10 + ((d : Int) - 48)) 0))
  | l => some (l.foldl (fun acc d => acc * 10 + ((d : Int) - 48)) 0)

/-- `Lexer.__parse_number`: optional sign, digit run, optional point and a
second digit run; with a point the result is a real (raw buffer kept),
otherwise the integer value. -/
def parse_number (s : LexState) : Except Err Lexeme × LexState :=
  let signStep : Except Err (List Nat) × LexState :=
    if s.current = PLUS ∨ s.current = MINUS then
      match advance s with
      | (.error e, s') => (.error e, s')
      | (.ok _, s') => (.ok [s.current], s')
    else (.ok [], s)
  match signStep with
  | (.error e, s') => (.error e, s')
  | (.ok buff0, s1) =>
    match digitRun (s1.length + 2) buff0 s1 with
    | (.error e, s') => (.error e, s')
    | (.ok buff1, s2) =>
      if s2.current = POINT then
        match advance s2 with
        | (.error e, s') => (.error e, s')
        | (.ok _, s3) =>
          match digitRun (s3.length + 2) (buff1 ++ [POINT]) s3 with
          | (.error e, s') => (.error e, s')
          | (.ok buff2, s4) => (.ok (.real buff2), s4)
      else
        match bytesToInt buff1 with
        | none => (.error .value, s2)
        | some i => (.ok (.int i), s2)

/-- The peek-and-compare pass of `Lexer.__parse_literal` (`enumerate`
index starts at 0); `true` means no difference was found. -/
def parseLiteralCheck : List Nat → Int → LexState → Bool × LexState
  | [], _, s => (true, s)
  | l :: ls, i, s =>
    match peek i s with
    | (p, s') => if p ≠ some l then (false, s') else parseLiteralCheck ls (i + 1) s'

/-- `for i in range(len(lit)): self.__advance()`. -/
def advanceN : Nat → LexState → Except Err Unit × LexState
  | 0, s => (.ok (), s)
  | n + 1, s =>
    match advance s with
    | (.error e, s') => (.error e, s')
    | (.ok _, s') => advanceN n s'

/-- `Lexer.__parse_literal(lit)`: if every peeked byte matches, consume
`len(lit)` bytes and return `true`. -/
def parse_literal (lit : List Nat) (s : LexState) : Except Err Bool × LexState :=
  match parseLiteralCheck lit 0 s with
  | (false, s') => (.ok false, s')
  | (true, s') =>
    match advanceN lit.length s' with
    | (.error e, s'') => (.error e, s'')
    | (.ok _, s'') => (.ok true, s'')

/-- `Lexer.__match_keyword`: try `KEYWORDS` in order; the matched keyword
(if any) is returned so the caller can set the current lexeme. -/
def matchKeywordLoop : List (List Nat) → LexState →
    Except Err (Option (List Nat)) × LexState
  | [], s => (.ok none, s)
  | k :: ks, s =>
    match parse_literal k s with
    | (.error e, s') => (.error e, s')
    | (.ok true, s') => (.ok (some k), s')
    | (.ok false, s') => matchKeywordLoop ks s'

/-! ## `Lexer.__next__` and the deferred stream reader -/

/-- `read_stream(length)` — the deferred closure built in the `stream`
branch of `__next__`, identified by its captured `streamPos`: save the
cursor position, seek to the origin, read `length` bytes, advance the
lookahead (skipping one more byte if it is a line feed), then restore the
saved position and return the data. -/
def read_stream (streamPos : Nat) (length : Int) (s : LexState) :
    Except Err (List Nat) × LexState :=
  let oldPos := s.source.tell
  let s1 := { s with source := s.source.seek (streamPos : Int) 0 }
  let data := (s1.source.read length).1
  let s2 := { s1 with source := (s1.source.read length).2 }
  match advance s2 with
  | (.error e, s') => (.error e, s')
  | (.ok _, s1) =>
    if s1.current = LINE_FEED then
      match advance s1 with
      | (.error e, s') => (.error e, s')
      | (.ok _, s2) =>
        (.ok data, { s2 with source := s2.source.seek (oldPos : Int) 0 })
    else
      (.ok data, { s1 with source := s1.source.seek (oldPos : Int) 0 })

/-- `Lexer.__next__`: replay a pushed-back lexeme if any, else skip blanks
and comments and dispatch on the lookahead byte exactly as the source does.
The produced lexeme is stored in `currentLexeme` and returned. -/
def lexNext (s : LexState) : Except Err Lexeme × LexState :=
  match s.lexemesBuffer with
  | l :: rest =>
    (.ok l, { s with lexemesBuffer := rest, currentLexeme := some l })
  | [] =>
    match remove_blanks s with
    | (.error e, s') => (.error e, s')
    | (.ok _, s1) =>
      if s1.current = OPEN_PARENTHESIS then
        match parse_string_literal s1 with
        | (.error e, s') => (.error e, s')
        | (.ok l, s2) => (.ok l, { s2 with currentLexeme := some l })
      else
        match peek 1 s1 with
        | (p1, s1) =>
          if s1.current = OPEN_ANGLE_BRACKET ∧ p1 ≠ some OPEN_ANGLE_BRACKET then
            match parse_hexadecimal_string s1 with
            | (.error e, s') => (.error e, s')
            | (.ok l, s2) => (.ok l, { s2 with currentLexeme := some l })
          else if s1.current = FORWARD_SLASH then
            match parse_name s1 with
            | (.error e, s') => (.error e, s')
            | (.ok l, s2) => (.ok l, { s2 with currentLexeme := some l })
          else if is_digit s1.current ∨ s1.current = PLUS ∨ s1.current = MINUS
              ∨ s1.current = POINT then
            match parse_number s1 with
            | (.error e, s') => (.error e, s')
            | (.ok l, s2) => (.ok l, { s2 with currentLexeme := some l })
          else
            match parse_literal [116, 114, 117, 101] s1 with
            | (.error e, s') => (.error e, s')
            | (.ok true, s2) =>
              (.ok (.bool true), { s2 with currentLexeme := some (.bool true) })
            | (.ok false, s2) =>
              match parse_literal [102, 97, 108, 115, 101] s2 with
              | (.error e, s') => (.error e, s')
              | (.ok true, s3) =>
                (.ok (.bool false), { s3 with currentLexeme := some (.bool false) })
              | (.ok false, s3) =>
                match parse_literal [115, 116, 114, 101, 97, 109] s3 with
                | (.error e, s') => (.error e, s')
                | (.ok true, s4) =>
                  -- the optional \r\n after the `stream` keyword
                  let crStep : Except Err Unit × LexState :=
                    if s4.current = CARRIAGE_RETURN then
                      match advance s4 with
                      | (.error e, s') => (.error e, s')
                      | (.ok _, s5) =>
                        if s5.current ≠ LINE_FEED then (.error .lexical, s5)
                        else (.ok (), s5)
                    else (.ok (), s4)
                  match crStep with
                  | (.error e, s') => (.error e, s')
                  | (.ok _, s5) =>
                    let l := Lexeme.streamReader s5.source.tell
                    (.ok l, { s5 with currentLexeme := some l })
                | (.ok false, s4) =>
                  match matchKeywordLoop KEYWORDS s4 with
                  | (.error e, s') => (.error e, s')
                  | (.ok (some k), s5) =>
                    (.ok (.keyword k), { s5 with currentLexeme := some (.keyword k) })
                  | (.ok none, s5) =>
                    if s5.current ∈ SINGLETONS then
                      let l := Lexeme.singleton s5.current
                      let s6 := { s5 with currentLexeme := some l }
                      match advance s6 with
                      | (.error e, s') => (.error e, s')
                      | (.ok _, s7) => (.ok l, s7)
                    else (.error .lexical, s5)

/-! ## Navigation: `move_at_position`, `move_back`, `seekable_rfind` -/

/-- `Lexer.move_at_position(pos)`: read `current_lexeme` (raising
`StopIteration` when ended), push the `(lexeme, position)` snapshot, seek,
re-prime the lookahead and tokenize.  The Python history list appends at
the end and pops from the end; the model keeps the stack top at the head. -/
def move_at_position (pos : Int) (s : LexState) : Except Err Lexeme × LexState :=
  match current_lexeme s with
  | (.error e, s') => (.error e, s')
  | (.ok previousLexeme, s1) =>
    let previousPosition := s1.source.tell
    let s2 := { s1 with
      movesHistory := (previousLexeme, previousPosition) :: s1.movesHistory }
    let s3 := { s2 with source := s2.source.seek pos 0 }
    match advance s3 with
    | (.error e, s') => (.error e, s')
    | (.ok _, s4) => lexNext s4

/-- `Lexer.move_back()`: pop the most recent snapshot (an empty history is
an error), restore the lexeme, seek to one byte before the saved position
and re-prime the lookahead. -/
def move_back (s : LexState) : Except Err Unit × LexState :=
  match s.movesHistory with
  | [] => (.error .noHistory, s)
  | (prevLex, prevPos) :: rest =>
    let s1 := { s with movesHistory := rest, currentLexeme := prevLex }
    let s2 := { s1 with source := s1.source.seek ((prevPos : Int) - 1) 0 }
    advance s2

/-- The inner byte-scanning loop of `Lexer.seekable_rfind`
(`while count <= self.__length`): seek to `length - count`, read one byte;
a non-CR/LF byte is appended to the line buffer, CR/LF breaks.  Returns the
updated `(count, buff, c)`; `c` is `none` while the Python local is still
unbound.  `count` grows every iteration, so fuel `length + 2` suffices. -/
def rfindInner : Nat → Nat → List Nat → Option Nat → LexState →
    (Nat × List Nat × Option Nat) × LexState
  | 0, count, buff, c, s => ((count, buff, c), s)
  | fuel + 1, count, buff, c, s =>
    if count ≤ s.length then
      let src := s.source.seek ((s.length : Int) - (count : Int)) 0
      let (cv, src) := src.read 1
      let s := { s with source := src }
      let cb := cv.headD 0
      if cb ≠ CARRIAGE_RETURN ∧ cb ≠ LINE_FEED then
        rfindInner fuel (count + 1) (buff ++ [cb]) (some cb) s
      else ((count + 1, buff, some cb), s)
    else ((count, buff, c), s)

/-- The outer line-matching loop of `Lexer.seekable_rfind`: while the
(reversed) line buffer differs from the reversed keyword, clear it and scan
the next line backward; when the scan is exhausted, a non-CR/LF last byte
returns `-1` (referencing `c` while unbound is the Python `NameError`).
On a match: remember the position, re-prime, tokenize once, return the
position.  This loop makes no progress when the scan is exhausted at a
CR/LF byte, so no fuel is sufficient then — the Python loops forever. -/
def rfindLoop : Nat → List Nat → List Nat → Nat → Option Nat → LexState →
    Except Err Int × LexState
  | fuel, revKeyword, buff, count, c, s =>
    if buff = revKeyword then
      let pos := s.source.tell
      match advance s with
      | (.error e, s') => (.error e, s')
      | (.ok _, s1) =>
        match lexNext s1 with
        | (.error e, s') => (.error e, s')
        | (.ok _, s2) => (.ok (pos : Int), s2)
    else
      match fuel with
      | 0 => (.error .fuel, s)
      | fuel + 1 =>
        match rfindInner (s.length + 2) count [] c s with
        | ((count', buff', c'), s1) =>
          if count' > s.length then
            match c' with
            | none => (.error .name, s1)
            | some cb =>
              if cb ≠ CARRIAGE_RETURN ∧ cb ≠ LINE_FEED then (.ok (-1), s1)
              else rfindLoop fuel revKeyword buff' count' c' s1
          else rfindLoop fuel revKeyword buff' count' c' s1

/-- `Lexer.seekable_rfind(keyword)` with explicit fuel for the outer loop. -/
def seekable_rfind (fuel : Nat) (keyword : List Nat) (s : LexState) :
    Except Err Int × LexState :=
  rfindLoop fuel keyword.reverse [] 1 none s

/-! ## Specification-side helpers -/

/-- The not-yet-consumed input of a lexer state: the lookahead byte followed
by the bytes after the cursor; empty once `ended` is set. -/
def restOf (s : LexState) : List Nat :=
  if s.ended then [] else s.current :: s.source.source.drop s.source.pos

/-- Byte sequences consisting solely of blanks and `%`-comments; the flag
is `true` inside a comment (which runs to the next line feed, or to the end
of the input). -/
def blanksCommentsMode : Bool → List Nat → Bool
  | _, [] => true
  | false, b :: rest =>
    if b ∈ BLANKS then blanksCommentsMode false rest
    else if b = PERCENTAGE then blanksCommentsMode true rest
    else false
  | true, b :: rest =>
    if b = LINE_FEED then blanksCommentsMode false rest
    else blanksCommentsMode true rest

def blanksComments (l : List Nat) : Bool := blanksCommentsMode false l

/-- The first byte of a hex-string body that is neither a blank nor a hex
digit (`none` when the input runs out first): the byte
`__parse_hexadecimal_string` stops at. -/
def firstStop : List Nat → Option Nat
  | [] => none
  | b :: rest =>
    if b ∈ BLANKS then firstStop rest
    else if is_hex_digit b then firstStop rest
    else some b

/-- The hex digits collected before the stopping byte (blanks dropped). -/
def hexPrefix (l : List Nat) : List Nat :=
  (l.takeWhile (fun b => b ∈ BLANKS || is_hex_digit b)).filter
    (fun b => !(b ∈ BLANKS : Bool))

deriving instance DecidableEq for Except

/-! ## Concrete example inputs and intermediate lexer states

The state literals below are the values the model computes on the example
buffers; each is certified against the run by an evaluation lemma further
down. -/

/-- `"stream\nABCDE\nendstream"`. -/
def streamExample : List Nat :=
  [115, 116, 114, 101, 97, 109, 10, 65, 66, 67, 68, 69, 10,
   101, 110, 100, 115, 116, 114, 101, 97, 109]

/-- The lexer state right after tokenizing the `stream` keyword of
`streamExample`: data origin 7 captured, line feed in the lookahead. -/
def sStream : LexState :=
  ⟨⟨streamExample, 7⟩, 22, 10, [], [], 200, false, some (.streamReader 7)⟩

/-- `"stream\nAB"` — a stream body that runs to the end of the buffer. -/
def shortStreamExample : List Nat := [115, 116, 114, 101, 97, 109, 10, 65, 66]

def sShortStream : LexState :=
  ⟨⟨shortStreamExample, 7⟩, 9, 10, [], [], 200, false, some (.streamReader 7)⟩

/-- `"a\nstartxref\n1234\n%%EOF"`. -/
def xrefExample : List Nat :=
  [97, 10, 115, 116, 97, 114, 116, 120, 114, 101, 102, 10,
   49, 50, 51, 52, 10, 37, 37, 69, 79, 70]

/-- The bytes of the `startxref` keyword. -/
def startxrefKw : List Nat := [115, 116, 97, 114, 116, 120, 114, 101, 102]

/-- The lexer state `seekable_rfind` leaves behind after locating the
`startxref` line of `xrefExample` and consuming the keyword token. -/
def sXref : LexState :=
  ⟨⟨xrefExample, 12⟩, 22, 10, [], [], 200, false, some (.keyword startxrefKw)⟩

/-- `"startxref\n1234"` — the keyword line sits at the start of the buffer. -/
def headKwExample : List Nat :=
  [115, 116, 97, 114, 116, 120, 114, 101, 102, 10, 49, 50, 51, 52]

/-- `"\nabc"` — no matching line and the exhausted scan stops on a line
feed, the configuration on which `seekable_rfind` never terminates. -/
def newlineAbcExample : List Nat := [10, 97, 98, 99]

def sNewlineAbc : LexState :=
  ⟨⟨newlineAbcExample, 1⟩, 4, 10, [], [], 200, false, none⟩

/-- `"1 1"`. -/
def oneOneExample : List Nat := [49, 32, 49]

/-- State after pulling the first `1` of `oneOneExample`. -/
def sOneOne : LexState := ⟨⟨oneOneExample, 2⟩, 3, 32, [], [], 200, false, some (.int 1)⟩

/-- `"1 1 2"`. -/
def restoreExample : List Nat := [49, 32, 49, 32, 50]

/-- State after pulling the first `1` of `restoreExample`. -/
def sRestore : LexState :=
  ⟨⟨restoreExample, 2⟩, 5, 32, [], [], 200, false, some (.int 1)⟩

/-- An ended lexer state over `"1"` (the end-of-sequence signal has been
raised). -/
def sEnded : LexState := ⟨⟨[49], 1⟩, 1, 32, [], [], 200, true, some (.int 1)⟩

/-- State after pulling the `1` of `"1 2"`; `ended` is still clear. -/
def sOneTwo : LexState := ⟨⟨[49, 32, 50], 2⟩, 3, 32, [], [], 200, false, some (.int 1)⟩

/-- The reachable-state invariant of the tokenizer: the measured length is
the buffer length, the cursor stays inside the buffer while not ended, and
after the end the lookahead holds the blank sentinel. -/
def TokInv (s : LexState) : Prop :=
  s.length = s.source.source.length ∧
  (s.ended = false → s.source.pos ≤ s.source.source.length) ∧
  (s.ended = true → s.current = 32)

/-! ## Cursor lemmas -/

theorem Seekable.seek_source (s : Seekable) (off : Int) (whence : Nat) :
    (s.seek off whence).source = s.source := by
  simp [Seekable.seek]

theorem Seekable.read_source (s : Seekable) (n : Int) :
    (s.read n).2.source = s.source := by
  unfold Seekable.read
  split
  · rfl
  · split
    · rfl
    · rfl

theorem Seekable.seek_pos_le (s : Seekable) (off : Int) (whence : Nat) :
    (s.seek off whence).pos ≤ s.source.length := by
  simp only [Seekable.seek]
  split_ifs <;> omega

/-- Seeking to an absolute in-range position lands exactly there. -/
theorem Seekable.seek_abs (s : Seekable) (p : Nat) (hp : p ≤ s.source.length) :
    s.seek (p : Int) 0 = { s with pos := p } := by
  have h0 : ¬ ((p : Int) < 0) := by omega
  have h1 : ¬ ((p : Int) > (s.source.length : Int)) := by omega
  simp [Seekable.seek, h0, h1]

/-- `read` advances the position by exactly the number of bytes returned. -/
theorem Seekable.read_pos_eq (s : Seekable) (n : Int) :
    (s.read n).2.pos = s.pos + (s.read n).1.length := by
  unfold Seekable.read
  split
  · simp
  · split
    · simp
    · simp

theorem Seekable.read_pos_le (s : Seekable) (n : Int)
    (h : s.pos ≤ s.source.length) : (s.read n).2.pos ≤ s.source.length := by
  unfold Seekable.read
  split
  · simpa using h
  · next hne =>
    split
    · simp only
      omega
    · simp only
      have h2 : ((s.source.drop s.pos).take
          (if n ≤ 0 then s.source.length else n.toNat)).length ≤
          (s.source.drop s.pos).length := by
        simp
      have h3 : (s.source.drop s.pos).length = s.source.length - s.pos := by
        simp
      omega

/-! ## Lookahead step lemmas -/

theorem advance_ended (s : LexState) (h : s.ended = true) :
    advance s = (.error .stop, s) := by
  simp [advance, h]

theorem advance_lt (s : LexState) (h : s.ended = false)
    (hp : s.source.pos < s.source.source.length) :
    advance s = (.ok (), { s with
      source := { s.source with pos := s.source.pos + 1 },
      current := s.source.source.getD s.source.pos 0 }) := by
  simp [advance, h, Seekable.read, Nat.ne_of_lt hp]

theorem advance_eq_len (s : LexState) (h : s.ended = false)
    (hp : s.source.pos = s.source.source.length) :
    advance s = (.ok (), { s with current := 32, ended := true }) := by
  simp [advance, h, Seekable.read, hp]

/-- `restOf` is headed by the lookahead byte while the lexer has not
ended. -/
theorem restOf_head (s : LexState) (h : s.ended = false) :
    restOf s = s.current :: s.source.source.drop s.source.pos := by
  simp [restOf, h]

/-- The bundled effect of a successful `__advance` on the unread input:
it consumes exactly the head of `restOf`, keeps every other lexer field,
and maintains the cursor invariant. -/
theorem advance_step (s : LexState) (h : s.ended = false)
    (hp : s.source.pos ≤ s.source.source.length) :
    ∃ s', advance s = (.ok (), s') ∧
      restOf s' = (restOf s).tail ∧
      s'.source.source = s.source.source ∧
      s'.length = s.length ∧
      s'.movesHistory = s.movesHistory ∧
      s'.currentLexeme = s.currentLexeme ∧
      s'.lexemesBuffer = s.lexemesBuffer ∧
      s'.contextSize = s.contextSize ∧
      s'.source.pos ≤ s.source.source.length ∧
      s.source.pos ≤ s'.source.pos ∧
      (s'.ended = true → s'.current = 32) ∧
      (s'.ended = false → s.source.pos < s'.source.pos) := by
  rcases Nat.lt_or_ge s.source.pos s.source.source.length with hlt | hge
  · refine ⟨⟨⟨s.source.source, s.source.pos + 1⟩, s.length,
      s.source.source.getD s.source.pos 0, s.lexemesBuffer, s.movesHistory,
      s.contextSize, s.ended, s.currentLexeme⟩, advance_lt s h hlt,
      ?_, rfl, rfl, rfl, rfl, rfl, rfl, hlt, Nat.le_succ _,
      fun hc => absurd (h ▸ hc) (by simp), fun _ => Nat.lt_succ_self _⟩
    show restOf _ = (restOf s).tail
    rw [restOf_head s h]
    show (if s.ended = true then _ else _) = _
    rw [if_neg (by simp [h])]
    simp only [List.tail_cons]
    rw [List.drop_eq_getElem_cons hlt,
      List.getD_eq_getElem s.source.source 0 hlt]
  · have hpe : s.source.pos = s.source.source.length := le_antisymm hp hge
    refine ⟨⟨s.source, s.length, 32, s.lexemesBuffer, s.movesHistory,
      s.contextSize, true, s.currentLexeme⟩, advance_eq_len s h hpe,
      ?_, rfl, rfl, rfl, rfl, rfl, rfl, hp, Nat.le_refl _,
      fun _ => rfl, fun hc => absurd hc (by simp)⟩
    show restOf _ = (restOf s).tail
    rw [restOf_head s h]
    simp only [List.tail_cons]
    show ([] : List Nat) = _
    rw [hpe, List.drop_length]

/-! ## Frame lemmas: which fields each operation can touch -/

/-- Fields every tokenizer-internal operation preserves (the underlying
buffer, the measured length, the move history, the context size), plus
monotonicity of the `ended` flag. -/
def Pres (s t : LexState) : Prop :=
  t.source.source = s.source.source ∧ t.length = s.length ∧
  t.movesHistory = s.movesHistory ∧ t.contextSize = s.contextSize ∧
  (s.ended = true → t.ended = true)

theorem Pres.refl (s : LexState) : Pres s s := ⟨rfl, rfl, rfl, rfl, id⟩

theorem Pres.trans {s t u : LexState} (h1 : Pres s t) (h2 : Pres t u) :
    Pres s u := by
  obtain ⟨a1, b1, c1, d1, e1⟩ := h1
  obtain ⟨a2, b2, c2, d2, e2⟩ := h2
  exact ⟨a2.trans a1, b2.trans b1, c2.trans c1, d2.trans d1, fun h => e2 (e1 h)⟩

theorem pres_advance (s : LexState) : Pres s (advance s).2 := by
  unfold advance
  split
  · exact Pres.refl s
  · rcases hr : s.source.read 1 with ⟨val, src⟩
    have hsrc : src.source = s.source.source := by
      have := Seekable.read_source s.source 1
      rw [hr] at this
      exact this
    cases val <;> simp_all [Pres]

theorem pres_peek (k : Int) (s : LexState) : Pres s (peek k s).2 := by
  unfold peek
  split
  · exact Pres.refl s
  · refine ⟨?_, rfl, rfl, rfl, fun h => h⟩
    simp [Seekable.seek_source, Seekable.read_source]

theorem pres_of_pair {α : Type} {s : LexState} {pr : α × LexState}
    (h : Pres s pr.2) {r : α} {t : LexState} (he : pr = (r, t)) :
    Pres s t := by
  rw [he] at h
  exact h

theorem pres_setLexeme (s : LexState) (l : Option Lexeme) :
    Pres s { s with currentLexeme := l } := ⟨rfl, rfl, rfl, rfl, fun h => h⟩

theorem pres_skipCommentLoop : ∀ fuel s, Pres s (skipCommentLoop fuel s).2 := by
  intro fuel
  induction fuel with
  | zero => intro s; exact Pres.refl s
  | succ f ih =>
    intro s
    unfold skipCommentLoop
    split
    · rcases ha : advance s with ⟨r, s'⟩
      have hp := pres_of_pair (pres_advance s) ha
      cases r with
      | error e => simp only [ha]; exact hp
      | ok _ => simp only [ha]; exact hp.trans (ih s')
    · exact Pres.refl s

theorem pres_removeBlanksLoop : ∀ fuel s, Pres s (removeBlanksLoop fuel s).2 := by
  intro fuel
  induction fuel with
  | zero => intro s; exact Pres.refl s
  | succ f ih =>
    intro s
    unfold removeBlanksLoop
    split
    · rcases ha : advance s with ⟨r, s'⟩
      have hp := pres_of_pair (pres_advance s) ha
      cases r with
      | error e => simp only [ha]; exact hp
      | ok _ => simp only [ha]; exact hp.trans (ih s')
    · split
      · rcases hc : skipCommentLoop (s.length + 2) s with ⟨r, s'⟩
        have hp := pres_of_pair (pres_skipCommentLoop (s.length + 2) s) hc
        cases r with
        | error e => simp only [hc]; exact hp
        | ok _ =>
          simp only [hc]
          rcases ha : advance s' with ⟨r2, s''⟩
          have hp2 := pres_of_pair (pres_advance s') ha
          cases r2 with
          | error e => simp only [ha]; exact hp.trans hp2
          | ok _ => simp only [ha]; exact (hp.trans hp2).trans (ih s'')
      · exact Pres.refl s

theorem pres_remove_blanks (s : LexState) : Pres s (remove_blanks s).2 :=
  pres_removeBlanksLoop (s.length + 2) s

theorem pres_octalRun : ∀ budget acc s, Pres s (octalRun budget acc s).2 := by
  intro budget
  induction budget with
  | zero => intro acc s; exact Pres.refl s
  | succ n ih =>
    intro acc s
    unfold octalRun
    split
    · rcases ha : advance s with ⟨r, s'⟩
      have hp := pres_of_pair (pres_advance s) ha
      cases r with
      | error e => simp only [ha]; exact hp
      | ok _ => simp only [ha]; exact hp.trans (ih _ s')
    · exact Pres.refl s

theorem pres_parseStrLoop :
    ∀ fuel op buf s, Pres s (parseStrLoop fuel op buf s).2 := by
  intro fuel
  induction fuel with
  | zero => intro op buf s; exact Pres.refl s
  | succ f ih =>
    intro op buf s
    unfold parseStrLoop
    split
    · exact Pres.refl s
    split
    · rcases ha : advance s with ⟨r, s'⟩
      have hp := pres_of_pair (pres_advance s) ha
      cases r with
      | error e => simp only [ha]; exact hp
      | ok _ => simp only [ha]; exact hp.trans (ih _ _ s')
    split
    · rcases ha : advance s with ⟨r, s'⟩
      have hp := pres_of_pair (pres_advance s) ha
      cases r with
      | error e => simp only [ha]; exact hp
      | ok _ => simp only [ha]; exact hp.trans (ih _ _ s')
    split
    · rcases ha : advance s with ⟨r, s1⟩
      have hp := pres_of_pair (pres_advance s) ha
      cases r with
      | error e => simp only [ha]; exact hp
      | ok _ =>
        simp only [ha]
        split
        · rcases ha2 : advance s1 with ⟨r2, s2⟩
          have hp2 := pres_of_pair (pres_advance s1) ha2
          cases r2 with
          | error e => simp only [ha2]; exact hp.trans hp2
          | ok _ => simp only [ha2]; exact (hp.trans hp2).trans (ih _ _ s2)
        · rcases ho : octalRun 3 [] s1 with ⟨r2, s2⟩
          have hp2 := pres_of_pair (pres_octalRun 3 [] s1) ho
          cases r2 with
          | error e => simp only [ho]; exact hp.trans hp2
          | ok digits =>
            simp only [ho]
            split
            · exact hp.trans hp2
            · exact (hp.trans hp2).trans (ih _ _ s2)
    · rcases ha : advance s with ⟨r, s'⟩
      have hp := pres_of_pair (pres_advance s) ha
      cases r with
      | error e => simp only [ha]; exact hp
      | ok _ => simp only [ha]; exact hp.trans (ih _ _ s')

theorem pres_parse_string_literal (s : LexState) :
    Pres s (parse_string_literal s).2 := by
  unfold parse_string_literal
  rcases ha : advance s with ⟨r, s1⟩
  have hp := pres_of_pair (pres_advance s) ha
  cases r with
  | error e => simp only [ha]; exact hp
  | ok _ =>
    simp only [ha]
    rcases hl : parseStrLoop (s1.length + 2) 1 [] s1 with ⟨r2, s2⟩
    have hp2 := pres_of_pair (pres_parseStrLoop (s1.length + 2) 1 [] s1) hl
    cases r2 with
    | error e => simp only [hl]; exact hp.trans hp2
    | ok buffer =>
      simp only [hl]
      cases hd : decodeLiteral buffer.dropLast with
      | none => simp only [hd]; exact hp.trans hp2
      | some cps => simp only [hd]; exact hp.trans hp2

theorem pres_parseHexLoop :
    ∀ fuel buf s, Pres s (parseHexLoop fuel buf s).2 := by
  intro fuel
  induction fuel with
  | zero => intro buf s; exact Pres.refl s
  | succ f ih =>
    intro buf s
    unfold parseHexLoop
    split
    · rcases ha : advance s with ⟨r, s'⟩
      have hp := pres_of_pair (pres_advance s) ha
      cases r with
      | error e => simp only [ha]; exact hp
      | ok _ => simp only [ha]; exact hp.trans (ih _ s')
    split
    · exact Pres.refl s
    · rcases ha : advance s with ⟨r, s'⟩
      have hp := pres_of_pair (pres_advance s) ha
      cases r with
      | error e => simp only [ha]; exact hp
      | ok _ => simp only [ha]; exact hp.trans (ih _ s')

theorem pres_parse_hexadecimal_string (s : LexState) :
    Pres s (parse_hexadecimal_string s).2 := by
  unfold parse_hexadecimal_string
  rcases ha : advance s with ⟨r, s1⟩
  have hp := pres_of_pair (pres_advance s) ha
  cases r with
  | error e => simp only [ha]; exact hp
  | ok _ =>
    simp only [ha]
    rcases hl : parseHexLoop (s1.length + 2) [] s1 with ⟨r2, s2⟩
    have hp2 := pres_of_pair (pres_parseHexLoop (s1.length + 2) [] s1) hl
    cases r2 with
    | error e => simp only [hl]; exact hp.trans hp2
    | ok buffer =>
      simp only [hl]
      split
      · exact hp.trans hp2
      · rcases ha2 : advance s2 with ⟨r3, s3⟩
        have hp3 := pres_of_pair (pres_advance s2) ha2
        cases r3 with
        | error e => simp only [ha2]; exact (hp.trans hp2).trans hp3
        | ok _ => simp only [ha2]; exact (hp.trans hp2).trans hp3

theorem pres_parseNameLoop :
    ∀ fuel buf s, Pres s (parseNameLoop fuel buf s).2 := by
  intro fuel
  induction fuel with
  | zero => intro buf s; exact Pres.refl s
  | succ f ih =>
    intro buf s
    unfold parseNameLoop
    split
    · split
      · rcases ha : advance s with ⟨r, s1⟩
        have hp := pres_of_pair (pres_advance s) ha
        cases r with
        | error e => simp only [ha]; exact hp
        | ok _ =>
          simp only [ha]
          cases hh : hex_to_number s1.current with
          | none => simp only [hh]; exact hp
          | some d1 =>
            simp only [hh]
            rcases ha2 : advance s1 with ⟨r2, s2⟩
            have hp2 := pres_of_pair (pres_advance s1) ha2
            cases r2 with
            | error e => simp only [ha2]; exact hp.trans hp2
            | ok _ =>
              simp only [ha2]
              cases hh2 : hex_to_number s2.current with
              | none => simp only [hh2]; exact hp.trans hp2
              | some d2 =>
                simp only [hh2]
                rcases ha3 : advance s2 with ⟨r3, s3⟩
                have hp3 := pres_of_pair (pres_advance s2) ha3
                cases r3 with
                | error e => simp only [ha3]; exact (hp.trans hp2).trans hp3
                | ok _ =>
                  simp only [ha3]
                  exact ((hp.trans hp2).trans hp3).trans (ih _ s3)
      · rcases ha : advance s with ⟨r, s'⟩
        have hp := pres_of_pair (pres_advance s) ha
        cases r with
        | error e => simp only [ha]; exact hp
        | ok _ => simp only [ha]; exact hp.trans (ih _ s')
    · exact Pres.refl s

theorem pres_parse_name (s : LexState) : Pres s (parse_name s).2 := by
  unfold parse_name
  rcases ha : advance s with ⟨r, s1⟩
  have hp := pres_of_pair (pres_advance s) ha
  cases r with
  | error e => simp only [ha]; exact hp
  | ok _ =>
    simp only [ha]
    rcases hl : parseNameLoop (s1.length + 2) [] s1 with ⟨r2, s2⟩
    have hp2 := pres_of_pair (pres_parseNameLoop (s1.length + 2) [] s1) hl
    cases r2 with
    | error e => simp only [hl]; exact hp.trans hp2
    | ok buffer =>
      simp only [hl]
      split
      · exact hp.trans hp2
      · exact hp.trans hp2

theorem pres_digitRun : ∀ fuel buf s, Pres s (digitRun fuel buf s).2 := by
  intro fuel
  induction fuel with
  | zero => intro buf s; exact Pres.refl s
  | succ f ih =>
    intro buf s
    unfold digitRun
    split
    · rcases ha : advance s with ⟨r, s'⟩
      have hp := pres_of_pair (pres_advance s) ha
      cases r with
      | error e => simp only [ha]; exact hp
      | ok _ => simp only [ha]; exact hp.trans (ih _ s')
    · exact Pres.refl s

theorem pres_parse_number (s : LexState) : Pres s (parse_number s).2 := by
  unfold parse_number
  have step : ∀ (pr : Except Err (List Nat) × LexState), Pres s pr.2 →
      Pres s ((match pr with
        | (.error e, s') => ((.error e : Except Err Lexeme), s')
        | (.ok buff0, s1) =>
          match digitRun (s1.length + 2) buff0 s1 with
          | (.error e, s') => (.error e, s')
          | (.ok buff1, s2) =>
            if s2.current = POINT then
              match advance s2 with
              | (.error e, s') => (.error e, s')
              | (.ok _, s3) =>
                match digitRun (s3.length + 2) (buff1 ++ [POINT]) s3 with
                | (.error e, s') => (.error e, s')
                | (.ok buff2, s4) => (.ok (.real buff2), s4)
            else
              match bytesToInt buff1 with
              | none => (.error .value, s2)
              | some i => (.ok (.int i), s2)) : Except Err Lexeme × LexState).2 := by
    intro pr hpr
    rcases pr with ⟨r, s1⟩
    cases r with
    | error e => exact hpr
    | ok buff0 =>
      rcases hd : digitRun (s1.length + 2) buff0 s1 with ⟨r2, s2⟩
      have hp2 := pres_of_pair (pres_digitRun (s1.length + 2) buff0 s1) hd
      cases r2 with
      | error e => simp only [hd]; exact hpr.trans hp2
      | ok buff1 =>
        simp only [hd]
        split
        · rcases ha : advance s2 with ⟨r3, s3⟩
          have hp3 := pres_of_pair (pres_advance s2) ha
          cases r3 with
          | error e => simp only [ha]; exact (hpr.trans hp2).trans hp3
          | ok _ =>
            simp only [ha]
            rcases hd2 : digitRun (s3.length + 2) (buff1 ++ [POINT]) s3 with ⟨r4, s4⟩
            have hp4 :=
              pres_of_pair (pres_digitRun (s3.length + 2) (buff1 ++ [POINT]) s3) hd2
            cases r4 with
            | error e => simp only [hd2]; exact ((hpr.trans hp2).trans hp3).trans hp4
            | ok buff2 => simp only [hd2]; exact ((hpr.trans hp2).trans hp3).trans hp4
        · cases hb : bytesToInt buff1 with
          | none => simp only [hb]; exact hpr.trans hp2
          | some i => simp only [hb]; exact hpr.trans hp2
  split
  · rcases ha : advance s with ⟨r, s'⟩
    have hp := pres_of_pair (pres_advance s) ha
    cases r with
    | error e => simp only [ha]; exact step (.error e, s') hp
    | ok _ => simp only [ha]; exact step (.ok [s.current], s') hp
  · exact step (.ok [], s) (Pres.refl s)

theorem pres_parseLiteralCheck :
    ∀ lit i s, Pres s (parseLiteralCheck lit i s).2 := by
  intro lit
  induction lit with
  | nil => intro i s; exact Pres.refl s
  | cons l ls ih =>
    intro i s
    unfold parseLiteralCheck
    rcases hp : peek i s with ⟨p, s'⟩
    have hpp := pres_of_pair (pres_peek i s) hp
    simp only [hp]
    split
    · exact hpp
    · exact hpp.trans (ih (i + 1) s')

theorem pres_advanceN : ∀ n s, Pres s (advanceN n s).2 := by
  intro n
  induction n with
  | zero => intro s; exact Pres.refl s
  | succ m ih =>
    intro s
    unfold advanceN
    rcases ha : advance s with ⟨r, s'⟩
    have hp := pres_of_pair (pres_advance s) ha
    cases r with
    | error e => simp only [ha]; exact hp
    | ok _ => simp only [ha]; exact hp.trans (ih s')

theorem pres_parse_literal (lit : List Nat) (s : LexState) :
    Pres s (parse_literal lit s).2 := by
  unfold parse_literal
  rcases hc : parseLiteralCheck lit 0 s with ⟨b, s'⟩
  have hp := pres_of_pair (pres_parseLiteralCheck lit 0 s) hc
  cases b with
  | false => simp only [hc]; exact hp
  | true =>
    simp only [hc]
    rcases ha : advanceN lit.length s' with ⟨r, s''⟩
    have hp2 := pres_of_pair (pres_advanceN lit.length s') ha
    cases r with
    | error e => simp only [ha]; exact hp.trans hp2
    | ok _ => simp only [ha]; exact hp.trans hp2

theorem pres_matchKeywordLoop :
    ∀ ks s, Pres s (matchKeywordLoop ks s).2 := by
  intro ks
  induction ks with
  | nil => intro s; exact Pres.refl s
  | cons k ks ih =>
    intro s
    unfold matchKeywordLoop
    rcases hl : parse_literal k s with ⟨r, s'⟩
    have hp := pres_of_pair (pres_parse_literal k s) hl
    cases r with
    | error e => simp only [hl]; exact hp
    | ok b =>
      cases b with
      | true => simp only [hl]; exact hp
      | false => simp only [hl]; exact hp.trans (ih s')

theorem pres_lexNext (s : LexState) : Pres s (lexNext s).2 := by
  unfold lexNext
  split
  · exact ⟨rfl, rfl, rfl, rfl, fun h => h⟩
  · rcases hb : remove_blanks s with ⟨r, s1⟩
    have hp1 := pres_of_pair (pres_remove_blanks s) hb
    cases r with
    | error e => simp only [hb]; exact hp1
    | ok _ =>
      simp only [hb]
      split
      · rcases hs : parse_string_literal s1 with ⟨r2, s2⟩
        have hp2 := pres_of_pair (pres_parse_string_literal s1) hs
        cases r2 with
        | error e => simp only [hs]; exact hp1.trans hp2
        | ok l =>
          simp only [hs]
          exact (hp1.trans hp2).trans (pres_setLexeme s2 (some l))
      · rcases hpk : peek 1 s1 with ⟨p1, s1b⟩
        have hp1b := pres_of_pair (pres_peek 1 s1) hpk
        have hpAll := hp1.trans hp1b
        simp only [hpk]
        split
        · rcases hx : parse_hexadecimal_string s1b with ⟨r2, s2⟩
          have hp2 := pres_of_pair (pres_parse_hexadecimal_string s1b) hx
          cases r2 with
          | error e => simp only [hx]; exact hpAll.trans hp2
          | ok l =>
            simp only [hx]
            exact ((hpAll.trans hp2)).trans (pres_setLexeme s2 (some l))
        split
        · rcases hn : parse_name s1b with ⟨r2, s2⟩
          have hp2 := pres_of_pair (pres_parse_name s1b) hn
          cases r2 with
          | error e => simp only [hn]; exact hpAll.trans hp2
          | ok l =>
            simp only [hn]
            exact (hpAll.trans hp2).trans (pres_setLexeme s2 (some l))
        split
        · rcases hm : parse_number s1b with ⟨r2, s2⟩
          have hp2 := pres_of_pair (pres_parse_number s1b) hm
          cases r2 with
          | error e => simp only [hm]; exact hpAll.trans hp2
          | ok l =>
            simp only [hm]
            exact (hpAll.trans hp2).trans (pres_setLexeme s2 (some l))
        · rcases ht : parse_literal [116, 114, 117, 101] s1b with ⟨r2, s2⟩
          have hp2 := pres_of_pair (pres_parse_literal [116, 114, 117, 101] s1b) ht
          cases r2 with
          | error e => simp only [ht]; exact hpAll.trans hp2
          | ok b =>
            cases b with
            | true =>
              simp only [ht]
              exact (hpAll.trans hp2).trans (pres_setLexeme s2 (some (.bool true)))
            | false =>
              simp only [ht]
              rcases hf : parse_literal [102, 97, 108, 115, 101] s2 with ⟨r3, s3⟩
              have hp3 :=
                pres_of_pair (pres_parse_literal [102, 97, 108, 115, 101] s2) hf
              have hpF := (hpAll.trans hp2).trans hp3
              cases r3 with
              | error e => simp only [hf]; exact hpF
              | ok b2 =>
                cases b2 with
                | true =>
                  simp only [hf]
                  exact hpF.trans (pres_setLexeme s3 (some (.bool false)))
                | false =>
                  simp only [hf]
                  rcases hst : parse_literal [115, 116, 114, 101, 97, 109] s3 with
                    ⟨r4, s4⟩
                  have hp4 :=
                    pres_of_pair
                      (pres_parse_literal [115, 116, 114, 101, 97, 109] s3) hst
                  have hpS := hpF.trans hp4
                  cases r4 with
                  | error e => simp only [hst]; exact hpS
                  | ok b3 =>
                    cases b3 with
                    | true =>
                      simp only [hst]
                      by_cases hCR : s4.current = CARRIAGE_RETURN
                      · rw [if_pos hCR]
                        rcases ha : advance s4 with ⟨r5, s5⟩
                        have hp5 := pres_of_pair (pres_advance s4) ha
                        have hpA := hpS.trans hp5
                        cases r5 with
                        | error e => simp only [ha]; exact hpA
                        | ok _ =>
                          simp only [ha]
                          by_cases hLF : s5.current ≠ LINE_FEED
                          · rw [if_pos hLF]
                            exact hpA
                          · rw [if_neg hLF]
                            exact hpA.trans (pres_setLexeme s5 _)
                      · rw [if_neg hCR]
                        exact hpS.trans (pres_setLexeme s4 _)
                    | false =>
                      simp only [hst]
                      rcases hk : matchKeywordLoop KEYWORDS s4 with ⟨r5, s5⟩
                      have hp5 := pres_of_pair (pres_matchKeywordLoop KEYWORDS s4) hk
                      have hpK := hpS.trans hp5
                      cases r5 with
                      | error e => simp only [hk]; exact hpK
                      | ok mk =>
                        cases mk with
                        | some k =>
                          simp only [hk]
                          exact hpK.trans (pres_setLexeme s5 (some (.keyword k)))
                        | none =>
                          simp only [hk]
                          split
                          · rcases ha : advance { s5 with
                              currentLexeme := some (.singleton s5.current) } with
                              ⟨r6, s6⟩
                            have hp6 :=
                              pres_of_pair (pres_advance { s5 with
                                currentLexeme := some (.singleton s5.current) }) ha
                            have hpZ :=
                              (hpK.trans (pres_setLexeme s5 _)).trans hp6
                            cases r6 with
                            | error e => simp only [ha]; exact hpZ
                            | ok _ => simp only [ha]; exact hpZ
                          · exact hpK

/-! ## Claim C9: cursor operations -/

theorem applyOp_inv (s : Seekable) (op : CursorOp) (h : s.pos ≤ s.source.length) :
    (applyOp s op).pos ≤ (applyOp s op).source.length ∧
    (applyOp s op).source = s.source := by
  cases op with
  | read n =>
    exact ⟨by rw [applyOp, Seekable.read_source]; exact Seekable.read_pos_le s n h,
      Seekable.read_source s n⟩
  | seek off whence =>
    exact ⟨by rw [applyOp, Seekable.seek_source]; exact Seekable.seek_pos_le s off whence,
      Seekable.seek_source s off whence⟩
  | tell => exact ⟨h, rfl⟩

theorem cursor_run_inv : ∀ (ops : List CursorOp) (s : Seekable),
    s.pos ≤ s.source.length →
    (ops.foldl applyOp s).pos ≤ (ops.foldl applyOp s).source.length ∧
    (ops.foldl applyOp s).source = s.source := by
  intro ops
  induction ops with
  | nil => intro s h; exact ⟨h, rfl⟩
  | cons op ops ih =>
    intro s h
    simp only [List.foldl_cons]
    obtain ⟨h1, h2⟩ := applyOp_inv s op h
    obtain ⟨h3, h4⟩ := ih _ h1
    exact ⟨h3, h4.trans h2⟩

/-- Claim C9: for every sequence of cursor operations (`read` of any count,
`seek` with any offset under any of the three origins, `tell`), the cursor
position invariant `0 ≤ position ≤ length` is preserved (positions are
naturals, so only the upper bound is substantive, and `tell` returns the
position): `seek` clamps into `[0, length]` and — being a total function —
never raises, and `read` advances the position by exactly the number of
bytes actually returned. -/
theorem C9_cursor_invariant :
    (∀ (b : List Nat) (ops : List CursorOp),
        (ops.foldl applyOp (Seekable.ofBytes b)).tell ≤ b.length) ∧
    (∀ (s : Seekable) (off : Int) (whence : Nat),
        (s.seek off whence).pos ≤ s.source.length) ∧
    (∀ (s : Seekable) (n : Int),
        (s.read n).2.pos = s.pos + (s.read n).1.length) := by
  refine ⟨?_, Seekable.seek_pos_le, Seekable.read_pos_eq⟩
  intro b ops
  have h := cursor_run_inv ops (Seekable.ofBytes b) (by simp [Seekable.ofBytes])
  have h2 : (ops.foldl applyOp (Seekable.ofBytes b)).source = b := h.2
  rw [Seekable.tell]
  calc (ops.foldl applyOp (Seekable.ofBytes b)).pos
      ≤ (ops.foldl applyOp (Seekable.ofBytes b)).source.length := h.1
    _ = b.length := by rw [h2]

/-! ## Claim C4: construction over the empty buffer -/

/-- Counterexample to claim C4: constructing the lexer over the empty byte
buffer does not succeed — `read(1)` returns the empty slice and the `[0]`
subscript in `__init__` raises `IndexError`. -/
theorem C4_counterexample : lexerInit [] = .error .index := by decide

/-- Evaluation of `Lexer.__init__` over a nonempty buffer. -/
theorem lexerInit_cons (x : Nat) (xs : List Nat) :
    lexerInit (x :: xs) =
      .ok ⟨⟨x :: xs, 1⟩, (x :: xs).length, x, [], [], 200, false, none⟩ := by
  have h2 : (⟨x :: xs, 0⟩ : Seekable).seek 0 2 = ⟨x :: xs, (x :: xs).length⟩ := by
    simp only [Seekable.seek, Seekable.mk.injEq, true_and]
    split_ifs <;> (try contradiction) <;> omega
  have h3 : (⟨x :: xs, (x :: xs).length⟩ : Seekable).seek ((0 : Nat) : Int) 0 =
      ⟨x :: xs, 0⟩ := by
    simpa using Seekable.seek_abs ⟨x :: xs, (x :: xs).length⟩ 0 (by simp)
  have h4 : (⟨x :: xs, 0⟩ : Seekable).read 1 = ([x], ⟨x :: xs, 1⟩) := by
    simp [Seekable.read]
  simp only [lexerInit, Seekable.ofBytes, Seekable.tell, h2, h3, h4]

/-- Claim C4, amended: constructing a lexer over the empty byte buffer
fails with an `IndexError` (the `read(1)[0]` lookahead preload has no byte
to return); no blank sentinel is synthesized and the `ended` flag is never
set at construction — that synthesis happens only inside `__advance` during
tokenization.  Over a nonempty buffer, construction succeeds with the
length measured, the first byte preloaded, position 1, and `ended` clear. -/
theorem C4_lexer_init :
    lexerInit [] = .error .index ∧
    ∀ b : List Nat, b ≠ [] →
      lexerInit b = .ok ⟨⟨b, 1⟩, b.length, b.getD 0 0, [], [], 200, false, none⟩ := by
  refine ⟨by decide, ?_⟩
  intro b hb
  cases b with
  | nil => exact absurd rfl hb
  | cons x xs => simpa using lexerInit_cons x xs

/-- Witness for the amended C4 at the one-byte buffer `[32]`. -/
theorem C4_witness :
    lexerInit [32] = .ok ⟨⟨[32], 1⟩, 1, 32, [], [], 200, false, none⟩ :=
  C4_lexer_init.2 [32] (by decide)


/-! ## Evaluation lemmas for the concrete examples -/

set_option maxHeartbeats 1000000 in
theorem eval_stream_next :
    lexNext (lexerInitD streamExample) = (.ok (.streamReader 7), sStream) := by
  simp [lexerInitD, lexerInit, lexNext, remove_blanks, removeBlanksLoop,
    advance, peek, Seekable.ofBytes, Seekable.read, Seekable.seek,
    Seekable.tell, BLANKS, is_digit, LINE_FEED, CARRIAGE_RETURN,
    OPEN_PARENTHESIS, OPEN_ANGLE_BRACKET, FORWARD_SLASH, PERCENTAGE,
    POINT, PLUS, MINUS, parse_number, digitRun, bytesToInt, parse_literal, parseLiteralCheck, advanceN, streamExample, sStream]

set_option maxHeartbeats 1000000 in
theorem eval_short_stream_next :
    lexNext (lexerInitD shortStreamExample) =
      (.ok (.streamReader 7), sShortStream) := by
  simp [lexerInitD, lexerInit, lexNext, remove_blanks, removeBlanksLoop,
    advance, peek, Seekable.ofBytes, Seekable.read, Seekable.seek,
    Seekable.tell, BLANKS, is_digit, LINE_FEED, CARRIAGE_RETURN,
    OPEN_PARENTHESIS, OPEN_ANGLE_BRACKET, FORWARD_SLASH, PERCENTAGE,
    POINT, PLUS, MINUS, parse_number, digitRun, bytesToInt, parse_literal, parseLiteralCheck, advanceN, shortStreamExample, sShortStream]

theorem eval_oneOne_next :
    lexNext (lexerInitD oneOneExample) = (.ok (.int 1), sOneOne) := by
  simp [lexerInitD, lexerInit, lexNext, remove_blanks, removeBlanksLoop,
    advance, peek, Seekable.ofBytes, Seekable.read, Seekable.seek,
    Seekable.tell, BLANKS, is_digit, LINE_FEED, CARRIAGE_RETURN,
    OPEN_PARENTHESIS, OPEN_ANGLE_BRACKET, FORWARD_SLASH, PERCENTAGE,
    POINT, PLUS, MINUS, parse_number, digitRun, bytesToInt, oneOneExample, sOneOne]

theorem eval_restore_next :
    lexNext (lexerInitD restoreExample) = (.ok (.int 1), sRestore) := by
  simp [lexerInitD, lexerInit, lexNext, remove_blanks, removeBlanksLoop,
    advance, peek, Seekable.ofBytes, Seekable.read, Seekable.seek,
    Seekable.tell, BLANKS, is_digit, LINE_FEED, CARRIAGE_RETURN,
    OPEN_PARENTHESIS, OPEN_ANGLE_BRACKET, FORWARD_SLASH, PERCENTAGE,
    POINT, PLUS, MINUS, parse_number, digitRun, bytesToInt, restoreExample, sRestore]

theorem eval_one_next :
    lexNext (lexerInitD [49]) = (.ok (.int 1), sEnded) := by
  simp [lexerInitD, lexerInit, lexNext, remove_blanks, removeBlanksLoop,
    advance, peek, Seekable.ofBytes, Seekable.read, Seekable.seek,
    Seekable.tell, BLANKS, is_digit, LINE_FEED, CARRIAGE_RETURN,
    OPEN_PARENTHESIS, OPEN_ANGLE_BRACKET, FORWARD_SLASH, PERCENTAGE,
    POINT, PLUS, MINUS, parse_number, digitRun, bytesToInt, sEnded]

theorem eval_one_next_stop : lexNext sEnded = (.error .stop, sEnded) := by
  simp [lexerInitD, lexerInit, lexNext, remove_blanks, removeBlanksLoop,
    advance, peek, Seekable.ofBytes, Seekable.read, Seekable.seek,
    Seekable.tell, BLANKS, is_digit, LINE_FEED, CARRIAGE_RETURN,
    OPEN_PARENTHESIS, OPEN_ANGLE_BRACKET, FORWARD_SLASH, PERCENTAGE,
    POINT, PLUS, MINUS, parse_number, digitRun, bytesToInt, sEnded]

theorem eval_oneTwo_next :
    lexNext (lexerInitD [49, 32, 50]) = (.ok (.int 1), sOneTwo) := by
  simp [lexerInitD, lexerInit, lexNext, remove_blanks, removeBlanksLoop,
    advance, peek, Seekable.ofBytes, Seekable.read, Seekable.seek,
    Seekable.tell, BLANKS, is_digit, LINE_FEED, CARRIAGE_RETURN,
    OPEN_PARENTHESIS, OPEN_ANGLE_BRACKET, FORWARD_SLASH, PERCENTAGE,
    POINT, PLUS, MINUS, parse_number, digitRun, bytesToInt, sOneTwo]

/-! ## Claim C1 (deferred stream reader): counterexample -/

/-- Counterexample to claim C1 as stated: invoking the deferred reader with
length `L = 0` does not return "exactly the 0 bytes starting at the
origin": `Seekable.read` treats a non-positive count as "read to the end",
so the whole remaining buffer comes back. -/
theorem C1_counterexample :
    lexNext (lexerInitD streamExample) = (.ok (.streamReader 7), sStream) ∧
    (read_stream 7 0 sStream).1 =
      .ok [65, 66, 67, 68, 69, 10, 101, 110, 100, 115, 116, 114, 101, 97, 109] ∧
    (read_stream 7 0 sStream).1 ≠ .ok ((streamExample.drop 7).take 0) := by
  refine ⟨eval_stream_next, ?_, ?_⟩ <;>
    simp [read_stream, advance, Seekable.read, Seekable.seek, Seekable.tell,
      LINE_FEED, streamExample, sStream]

/-! ## Claim C2 (move_to / move_back backtracking): counterexample -/

/-- Counterexample to claim C2 as stated: over `"1 1"`, after producing the
first lexeme (state `sOneOne`: lexeme `1`, position 2, not ended), calling
`move_at_position 2` tokenizes the trailing `1`, which reads past the end
of the buffer and sets `ended`; the immediately following `move_back` then
raises `StopIteration` out of its lookahead re-prime and leaves the cursor
at position 1 — the cursor position is NOT restored to 2. -/
theorem C2_counterexample :
    lexNext (lexerInitD oneOneExample) = (.ok (.int 1), sOneOne) ∧
    sOneOne.currentLexeme = some (.int 1) ∧ sOneOne.ended = false ∧
    sOneOne.source.pos = 2 ∧ (2 : Nat) < oneOneExample.length ∧
    (move_back (move_at_position 2 sOneOne).2).1 = .error .stop ∧
    (move_back (move_at_position 2 sOneOne).2).2.source.pos = 1 ∧
    (move_back (move_at_position 2 sOneOne).2).2.source.pos ≠
      sOneOne.source.pos := by
  refine ⟨eval_oneOne_next, ?_, ?_, ?_, ?_, ?_, ?_, ?_⟩ <;>
    simp [lexerInitD, lexerInit, lexNext, remove_blanks, removeBlanksLoop,
    advance, peek, Seekable.ofBytes, Seekable.read, Seekable.seek,
    Seekable.tell, BLANKS, is_digit, LINE_FEED, CARRIAGE_RETURN,
    OPEN_PARENTHESIS, OPEN_ANGLE_BRACKET, FORWARD_SLASH, PERCENTAGE,
    POINT, PLUS, MINUS, parse_number, digitRun, bytesToInt, current_lexeme, move_at_position, move_back, oneOneExample, sOneOne]

/-! ## Claim C5 (hex-string termination errors): counterexample -/

/-- Counterexample to claim C5 as stated: the unterminated hex string
`"<41"` does not raise a `PDFLexicalError` — reading past the end of the
buffer plants the blank sentinel, which the loop keeps skipping until
`__advance` raises the end-of-sequence signal `StopIteration`. -/
theorem C5_counterexample :
    (lexNext (lexerInitD [60, 52, 49])).1 = .error .stop ∧
    (lexNext (lexerInitD [60, 52, 49])).1 ≠ .error .lexical := by
  constructor <;>
    simp [lexerInitD, lexerInit, lexNext, remove_blanks, removeBlanksLoop,
    advance, peek, Seekable.ofBytes, Seekable.read, Seekable.seek,
    Seekable.tell, BLANKS, is_digit, LINE_FEED, CARRIAGE_RETURN,
    OPEN_PARENTHESIS, OPEN_ANGLE_BRACKET, FORWARD_SLASH, PERCENTAGE,
    POINT, PLUS, MINUS, parse_hexadecimal_string, parseHexLoop, is_hex_digit,
      CLOSE_ANGLE_BRACKET]

/-! ## Claim C6 (string-literal decoding): counterexample -/

/-- Counterexample to claim C6 as stated: the literal `"(\x81)"` is
rejected purely for encoding reasons — `0x81` is invalid UTF-8 and is one
of the five bytes undefined in cp1252, so the fallback decode raises an
uncaught `UnicodeDecodeError`. -/
theorem C6_counterexample :
    (lexNext (lexerInitD [40, 129, 41])).1 = .error .decode := by
  have h3 : decodeLiteral [129] = none := by decide
  simp [lexerInitD, lexerInit, lexNext, remove_blanks, removeBlanksLoop,
    advance, peek, Seekable.ofBytes, Seekable.read, Seekable.seek,
    Seekable.tell, BLANKS, is_digit, LINE_FEED, CARRIAGE_RETURN,
    OPEN_PARENTHESIS, OPEN_ANGLE_BRACKET, FORWARD_SLASH, PERCENTAGE,
    POINT, PLUS, MINUS, parse_string_literal, parseStrLoop, octalRun,
    octalValue, STRING_ESCAPE_SEQUENCES, CLOSE_PARENTHESIS, BACK_SLASH, h3]

/-! ## Claim C8 (restart after end-of-sequence): counterexample -/

/-- Counterexample to claim C8 as stated: after the end-of-sequence signal
(`"1"` fully tokenized, second pull raises `StopIteration`), `move_to(0)`
does not restart tokenization: its very first step reads `current_lexeme`,
whose guard re-raises `StopIteration` because `ended` is set. -/
theorem C8_counterexample :
    lexNext (lexerInitD [49]) = (.ok (.int 1), sEnded) ∧
    (lexNext sEnded).1 = .error .stop ∧
    (move_at_position 0 (lexNext sEnded).2).1 = .error .stop ∧
    (move_at_position 0 (lexNext sEnded).2).1 ≠ .ok (.int 1) := by
  refine ⟨eval_one_next, ?_, ?_, ?_⟩ <;>
    simp [lexerInitD, lexerInit, lexNext, remove_blanks, removeBlanksLoop,
    advance, peek, Seekable.ofBytes, Seekable.read, Seekable.seek,
    Seekable.tell, BLANKS, is_digit, LINE_FEED, CARRIAGE_RETURN,
    OPEN_PARENTHESIS, OPEN_ANGLE_BRACKET, FORWARD_SLASH, PERCENTAGE,
    POINT, PLUS, MINUS, parse_number, digitRun, bytesToInt, current_lexeme, move_at_position, move_back, sEnded]

/-! ## Claim C3 (reverse anchor search) -/

set_option maxHeartbeats 1000000 in
theorem eval_rfind_xref :
    seekable_rfind 30 startxrefKw (lexerInitD xrefExample) = (.ok 2, sXref) := by
  simp [lexerInitD, lexerInit, lexNext, remove_blanks, removeBlanksLoop,
    skipCommentLoop, advance, peek, Seekable.ofBytes, Seekable.read,
    Seekable.seek, Seekable.tell, BLANKS, PERCENTAGE, LINE_FEED,
    CARRIAGE_RETURN, OPEN_PARENTHESIS, OPEN_ANGLE_BRACKET, FORWARD_SLASH,
    PLUS, MINUS, POINT, is_digit, parse_literal, parseLiteralCheck,
    advanceN, matchKeywordLoop, KEYWORDS, SINGLETONS, parse_number,
    digitRun, bytesToInt, seekable_rfind, rfindLoop, rfindInner, xrefExample, startxrefKw, sXref]

theorem eval_rfind_next :
    (lexNext sXref).1 = .ok (.int 1234) := by
  simp [lexNext, remove_blanks, removeBlanksLoop, advance, peek,
    Seekable.read, Seekable.seek, Seekable.tell, BLANKS, PERCENTAGE,
    LINE_FEED, CARRIAGE_RETURN, OPEN_PARENTHESIS, OPEN_ANGLE_BRACKET,
    FORWARD_SLASH, PLUS, MINUS, POINT, is_digit, parse_number, digitRun,
    bytesToInt, sXref, xrefExample, startxrefKw]

set_option maxHeartbeats 1000000 in
theorem eval_rfind_nomatch :
    (seekable_rfind 30 startxrefKw (lexerInitD [97, 98, 99])).1 = .ok (-1) := by
  simp [lexerInitD, lexerInit, lexNext, remove_blanks, removeBlanksLoop,
    skipCommentLoop, advance, peek, Seekable.ofBytes, Seekable.read,
    Seekable.seek, Seekable.tell, BLANKS, PERCENTAGE, LINE_FEED,
    CARRIAGE_RETURN, OPEN_PARENTHESIS, OPEN_ANGLE_BRACKET, FORWARD_SLASH,
    PLUS, MINUS, POINT, is_digit, parse_literal, parseLiteralCheck,
    advanceN, matchKeywordLoop, KEYWORDS, SINGLETONS, parse_number,
    digitRun, bytesToInt, seekable_rfind, rfindLoop, rfindInner, startxrefKw]

set_option maxHeartbeats 1000000 in
theorem eval_rfind_headKw :
    (seekable_rfind 30 startxrefKw (lexerInitD headKwExample)).1 = .ok (-1) := by
  simp [lexerInitD, lexerInit, lexNext, remove_blanks, removeBlanksLoop,
    skipCommentLoop, advance, peek, Seekable.ofBytes, Seekable.read,
    Seekable.seek, Seekable.tell, BLANKS, PERCENTAGE, LINE_FEED,
    CARRIAGE_RETURN, OPEN_PARENTHESIS, OPEN_ANGLE_BRACKET, FORWARD_SLASH,
    PLUS, MINUS, POINT, is_digit, parse_literal, parseLiteralCheck,
    advanceN, matchKeywordLoop, KEYWORDS, SINGLETONS, parse_number,
    digitRun, bytesToInt, seekable_rfind, rfindLoop, rfindInner, startxrefKw, headKwExample]

theorem eval_newlineAbc_init : lexerInitD newlineAbcExample = sNewlineAbc := by
  simp [lexerInitD, lexerInit, Seekable.ofBytes, Seekable.read, Seekable.seek,
    Seekable.tell, newlineAbcExample, sNewlineAbc]

/-- On `"\nabc"` the exhausted backward scan ends on the line feed at
index 0, so the outer loop of `seekable_rfind` repeats forever with an
unchanged configuration: no amount of fuel completes the run. -/
theorem rfind_diverges_aux : ∀ (f : Nat) (buff : List Nat),
    buff ≠ startxrefKw.reverse →
    (rfindLoop f startxrefKw.reverse buff 5 (some 10) sNewlineAbc).1 =
      .error .fuel := by
  have hinner : rfindInner (sNewlineAbc.length + 2) 5 [] (some 10) sNewlineAbc =
      ((5, [], some 10), sNewlineAbc) := by decide
  intro f
  induction f with
  | zero =>
    intro buff hb
    rw [rfindLoop]
    rw [if_neg hb]
  | succ g ih =>
    intro buff hb
    rw [rfindLoop]
    rw [if_neg hb]
    simp only [hinner]
    have h54 : (5 > sNewlineAbc.length) = True := by decide
    simp only [h54, if_true]
    have h10 : (10 ≠ CARRIAGE_RETURN ∧ 10 ≠ LINE_FEED) = False := by decide
    simp only [h10, if_false]
    exact ih [] (by decide)

theorem rfind_diverges (f : Nat) :
    (seekable_rfind f startxrefKw (lexerInitD newlineAbcExample)).1 =
      .error .fuel := by
  rw [eval_newlineAbc_init]
  cases f with
  | zero =>
    rw [seekable_rfind, rfindLoop]
    rw [if_neg (by decide)]
  | succ g =>
    have hscan : rfindInner (sNewlineAbc.length + 2) 1 [] none sNewlineAbc =
        ((5, [99, 98, 97], some 10), sNewlineAbc) := by decide
    rw [seekable_rfind, rfindLoop]
    rw [if_neg (by decide)]
    simp only [hscan]
    have h54 : (5 > sNewlineAbc.length) = True := by decide
    simp only [h54, if_true]
    have h10 : (10 ≠ CARRIAGE_RETURN ∧ 10 ≠ LINE_FEED) = False := by decide
    simp only [h10, if_false]
    exact rfind_diverges_aux g [99, 98, 97] (by decide)

/-- Counterexample to claim C3 as stated: in `"startxref\n1234"` the first
line equals the keyword `startxref` exactly (and is line-feed delimited),
yet `seekable_rfind` returns the not-found sentinel `-1`: the exhausted
backward scan triggers the `-1` branch before the line buffer is compared
against the keyword. -/
theorem C3_counterexample :
    (seekable_rfind 30 startxrefKw (lexerInitD headKwExample)).1 = .ok (-1) ∧
    headKwExample.take 9 = startxrefKw ∧
    headKwExample.getD 9 0 = LINE_FEED := by
  refine ⟨eval_rfind_headKw, by decide, by decide⟩

/-- Claim C3, amended and settled on concrete runs: on
`"a\nstartxref\n1234\n%%EOF"` the reverse anchor search returns position
2 — the FIRST byte of the line-feed-delimited `startxref` line, not the
position just after it — repositions the cursor there and consumes the
keyword token, so the next token pulled is the integer 1234; on `"abc"`
(no matching line) it returns `-1`; on `"startxref\n1234"` the exhausted
backward scan returns `-1` before the unterminated first line — although
it equals the keyword exactly — is ever compared; and on `"\nabc"` (first
byte a line-feed delimiter, no delimited match) the outer loop repeats
with unchanged state, so the search never terminates: every fuel is
exhausted. -/
theorem C3_seekable_rfind :
    seekable_rfind 30 startxrefKw (lexerInitD xrefExample) = (.ok 2, sXref) ∧
    (xrefExample.drop 2).take 9 = startxrefKw ∧
    xrefExample.getD 1 0 = LINE_FEED ∧
    (lexNext sXref).1 = .ok (.int 1234) ∧
    (seekable_rfind 30 startxrefKw (lexerInitD [97, 98, 99])).1 = .ok (-1) ∧
    (seekable_rfind 30 startxrefKw (lexerInitD headKwExample)).1 = .ok (-1) ∧
    ∀ f : Nat,
      (seekable_rfind f startxrefKw (lexerInitD newlineAbcExample)).1 =
        .error .fuel :=
  ⟨eval_rfind_xref, by decide, by decide, eval_rfind_next,
   eval_rfind_nomatch, eval_rfind_headKw, rfind_diverges⟩

/-! ## Blank-and-comment skipping: the full characterization (claim C7) -/

theorem advance_step_inv (s : LexState) (hI : TokInv s) (h : s.ended = false) :
    ∃ s', advance s = (.ok (), s') ∧ TokInv s' ∧ restOf s' = (restOf s).tail ∧
      s'.source.source = s.source.source ∧ s'.length = s.length ∧
      s'.currentLexeme = s.currentLexeme ∧ s'.lexemesBuffer = s.lexemesBuffer ∧
      s'.movesHistory = s.movesHistory := by
  obtain ⟨hlen, hpos, _⟩ := hI
  obtain ⟨s', ha, hrest, hsrc, hlen', hmove, hclex, hbuf, _, hple, _, hsent', _⟩ :=
    advance_step s h (hpos h)
  exact ⟨s', ha,
    ⟨by rw [hlen', hsrc, hlen], fun _ => by rw [hsrc]; exact hple, hsent'⟩,
    hrest, hsrc, hlen', hclex, hbuf, hmove⟩

theorem advance_keeps (s : LexState) :
    (advance s).2.currentLexeme = s.currentLexeme := by
  unfold advance
  split
  · rfl
  · rcases s.source.read 1 with ⟨val, src⟩
    cases val <;> rfl

theorem skipComment_keeps : ∀ fuel s,
    (skipCommentLoop fuel s).2.currentLexeme = s.currentLexeme := by
  intro fuel
  induction fuel with
  | zero => intro s; rfl
  | succ g ih =>
    intro s
    unfold skipCommentLoop
    split
    · rcases ha : advance s with ⟨r, s'⟩
      have hk : s'.currentLexeme = s.currentLexeme := by
        have := advance_keeps s
        rw [ha] at this
        exact this
      cases r with
      | error e => simp only [ha]; exact hk
      | ok _ => simp only [ha]; rw [ih s', hk]
    · rfl

theorem removeBlanks_keeps : ∀ fuel s,
    (removeBlanksLoop fuel s).2.currentLexeme = s.currentLexeme := by
  intro fuel
  induction fuel with
  | zero => intro s; rfl
  | succ g ih =>
    intro s
    unfold removeBlanksLoop
    split
    · rcases ha : advance s with ⟨r, s'⟩
      have hk : s'.currentLexeme = s.currentLexeme := by
        have := advance_keeps s
        rw [ha] at this
        exact this
      cases r with
      | error e => simp only [ha]; exact hk
      | ok _ => simp only [ha]; rw [ih s', hk]
    · split
      · rcases hc : skipCommentLoop (s.length + 2) s with ⟨r, s'⟩
        have hk : s'.currentLexeme = s.currentLexeme := by
          have := skipComment_keeps (s.length + 2) s
          rw [hc] at this
          exact this
        cases r with
        | error e => simp only [hc]; exact hk
        | ok _ =>
          simp only [hc]
          rcases ha : advance s' with ⟨r2, s''⟩
          have hk2 : s''.currentLexeme = s'.currentLexeme := by
            have := advance_keeps s'
            rw [ha] at this
            exact this
          cases r2 with
          | error e => simp only [ha]; rw [hk2, hk]
          | ok _ => simp only [ha]; rw [ih s'', hk2, hk]
      · rfl

/-- Running the comment-skipping loop over a well-formed comment tail
either raises the end-of-sequence signal (comment unterminated by a line
feed) or stops with the line feed in the lookahead and a blank/comment run
remaining. -/
theorem skipComment_run : ∀ (fuel : Nat) (s : LexState), TokInv s →
    blanksCommentsMode true (restOf s) = true →
    (restOf s).length + 1 ≤ fuel →
    (skipCommentLoop fuel s).1 = .error .stop ∨
    (∃ s', skipCommentLoop fuel s = (.ok (), s') ∧ TokInv s' ∧
      s'.ended = false ∧ s'.current = LINE_FEED ∧
      s'.source.source = s.source.source ∧ s'.length = s.length ∧
      s'.currentLexeme = s.currentLexeme ∧
      blanksCommentsMode false (restOf s').tail = true ∧
      (restOf s').length ≤ (restOf s).length) := by
  intro fuel
  induction fuel with
  | zero =>
    intro s _ _ hfuel
    omega
  | succ g ih =>
    intro s hI hmode hfuel
    by_cases he : s.ended = true
    · have hc : s.current = 32 := hI.2.2 he
      left
      simp only [skipCommentLoop]
      rw [if_pos (by rw [hc]; decide), advance_ended s he]
    · have he' : s.ended = false := by revert he; cases s.ended <;> simp
      by_cases hcur : s.current = LINE_FEED
      · refine Or.inr ⟨s, ?_, hI, he', hcur, rfl, rfl, rfl, ?_, Nat.le_refl _⟩
        · simp only [skipCommentLoop]
          rw [if_neg (by simp [hcur])]
        · rw [restOf_head s he'] at hmode ⊢
          simp only [List.tail_cons]
          simpa [blanksCommentsMode, hcur] using hmode
      · obtain ⟨s1, ha, hI1, hrest1, hsrc1, hlen1, hclex1, _, _⟩ :=
          advance_step_inv s hI he'
        have hmode1 : blanksCommentsMode true (restOf s1) = true := by
          rw [hrest1, restOf_head s he', List.tail_cons]
          rw [restOf_head s he'] at hmode
          simpa [blanksCommentsMode, hcur] using hmode
        have hfuel1 : (restOf s1).length + 1 ≤ g := by
          rw [hrest1] at *
          rw [restOf_head s he'] at hfuel
          simp only [List.tail_cons, List.length_cons] at *
          rw [restOf_head s he']
          simp only [List.tail_cons]
          omega
        rcases ih s1 hI1 hmode1 hfuel1 with hstop |
          ⟨s', hs', hI', he'', hcur', hsrc', hlen', hclex', hmode', hlelen⟩
        · left
          simp only [skipCommentLoop]
          rw [if_pos hcur, ha]
          exact hstop
        · right
          refine ⟨s', ?_, hI', he'', hcur', hsrc'.trans hsrc1,
            hlen'.trans hlen1, hclex'.trans hclex1, hmode', ?_⟩
          · simp only [skipCommentLoop]
            rw [if_pos hcur, ha]
            exact hs'
          · calc (restOf s').length ≤ (restOf s1).length := hlelen
              _ ≤ (restOf s).length := by
                  rw [hrest1, restOf_head s he']
                  simp

/-- Over a byte run made solely of blanks and comments, `__remove_blanks`
always runs off the end of the input and raises the end-of-sequence
signal. -/
theorem removeBlanks_run : ∀ (fuel : Nat) (s : LexState), TokInv s →
    blanksCommentsMode false (restOf s) = true →
    (restOf s).length + 1 ≤ fuel →
    (removeBlanksLoop fuel s).1 = .error .stop := by
  intro fuel
  induction fuel with
  | zero =>
    intro s _ _ hfuel
    omega
  | succ g ih =>
    intro s hI hmode hfuel
    by_cases he : s.ended = true
    · have hc : s.current = 32 := hI.2.2 he
      simp only [removeBlanksLoop]
      rw [if_pos (by rw [hc]; decide), advance_ended s he]
    · have he' : s.ended = false := by revert he; cases s.ended <;> simp
      by_cases hbl : s.current ∈ BLANKS
      · obtain ⟨s1, ha, hI1, hrest1, _, _, _, _, _⟩ := advance_step_inv s hI he'
        have hmode1 : blanksCommentsMode false (restOf s1) = true := by
          rw [hrest1, restOf_head s he', List.tail_cons]
          rw [restOf_head s he'] at hmode
          simpa [blanksCommentsMode, hbl] using hmode
        have hfuel1 : (restOf s1).length + 1 ≤ g := by
          have h1 : (restOf s1).length + 1 = (restOf s).length := by
            rw [hrest1, restOf_head s he']
            simp
          omega
        simp only [removeBlanksLoop]
        rw [if_pos hbl, ha]
        exact ih s1 hI1 hmode1 hfuel1
      · by_cases hpc : s.current = PERCENTAGE
        · have hnl : ¬ s.current = LINE_FEED := by
            intro hlf
            exact hbl (by rw [hlf]; decide)
          have hmodeT : blanksCommentsMode true (restOf s) = true := by
            rw [restOf_head s he'] at hmode ⊢
            simp only [blanksCommentsMode] at hmode ⊢
            rw [if_neg hbl, if_pos hpc] at hmode
            rw [if_neg hnl]
            exact hmode
          have hfuelC : (restOf s).length + 1 ≤ s.length + 2 := by
            have hlen := hI.1
            have hpos := hI.2.1 he'
            rw [restOf_head s he']
            have : (s.source.source.drop s.source.pos).length =
                s.source.source.length - s.source.pos := by simp
            simp only [List.length_cons]
            omega
          rcases skipComment_run (s.length + 2) s hI hmodeT hfuelC with hstop |
            ⟨s', hs', hI', he'', hcur', hsrc', hlen', _, hmode', hlelen⟩
          · simp only [removeBlanksLoop]
            rw [if_neg hbl, if_pos hpc]
            rcases hsc : skipCommentLoop (s.length + 2) s with ⟨r, sx⟩
            rw [hsc] at hstop
            cases r with
            | error e =>
              simp only [hsc]
              simpa using hstop
            | ok _ => simp at hstop
          · obtain ⟨s2, ha2, hI2, hrest2, _, _, _, _, _⟩ :=
              advance_step_inv s' hI' he''
            have hmode2 : blanksCommentsMode false (restOf s2) = true := by
              rw [hrest2]
              exact hmode'
            have hfuel2 : (restOf s2).length + 1 ≤ g := by
              have h1 : (restOf s2).length + 1 = (restOf s').length := by
                rw [hrest2, restOf_head s' he'']
                simp
              have h2 : (restOf s).length + 1 ≤ g + 1 := hfuel
              omega
            simp only [removeBlanksLoop]
            rw [if_neg hbl, if_pos hpc]
            simp only [hs', ha2]
            exact ih s2 hI2 hmode2 hfuel2
        · exfalso
          rw [restOf_head s he'] at hmode
          simp only [blanksCommentsMode] at hmode
          rw [if_neg hbl, if_neg hpc] at hmode
          exact Bool.false_ne_true hmode

/-- Claim C7: for every byte sequence consisting solely of blanks (space,
tab, CR, LF, form feed, NUL) and `%`-comments — including a final comment
not terminated by a line feed — pulling the next token terminates with the
end-of-sequence signal (`StopIteration`, never a lexical error) and no
lexeme is ever emitted (`currentLexeme` stays `none`).  The hypothesis
`lexerInit b = .ok s` restricts to buffers over which a lexer can be
constructed at all. -/
theorem C7_blanks_comments (b : List Nat) (s : LexState)
    (hinit : lexerInit b = .ok s) (hbc : blanksComments b = true) :
    (lexNext s).1 = .error .stop ∧ (lexNext s).2.currentLexeme = none := by
  cases b with
  | nil =>
    rw [show lexerInit [] = .error .index from by decide] at hinit
    simp at hinit
  | cons x xs =>
    rw [lexerInit_cons] at hinit
    have hs : s = ⟨⟨x :: xs, 1⟩, (x :: xs).length, x, [], [], 200, false, none⟩ := by
      injection hinit with h
      exact h.symm
    subst hs
    set s0 : LexState :=
      ⟨⟨x :: xs, 1⟩, (x :: xs).length, x, [], [], 200, false, none⟩ with hs0
    have hI : TokInv s0 := by
      refine ⟨rfl, fun _ => ?_, fun h => ?_⟩
      · show 1 ≤ (x :: xs).length
        simp
      · exact absurd h (by simp [hs0])
    have hrest : restOf s0 = x :: xs := by
      rw [restOf_head s0 rfl]
      simp [hs0]
    have hrb : (removeBlanksLoop ((x :: xs).length + 2) s0).1 = .error .stop := by
      apply removeBlanks_run
      · exact hI
      · rw [hrest]
        exact hbc
      · rw [hrest]
        simp
    have hkeep := removeBlanks_keeps ((x :: xs).length + 2) s0
    rcases hrbe : removeBlanksLoop ((x :: xs).length + 2) s0 with ⟨r, s1⟩
    rw [hrbe] at hrb hkeep
    simp only at hrb hkeep
    subst hrb
    constructor
    · simp only [lexNext, remove_blanks]
      simp only [hs0] at hrbe ⊢
      simp only [hrbe]
    · simp only [lexNext, remove_blanks]
      simp only [hs0] at hrbe hkeep ⊢
      simp only [hrbe]
      exact hkeep

/-- Witness for C7 at the single-blank buffer `" "`. -/
theorem C7_witness :
    (lexNext ⟨⟨[32], 1⟩, 1, 32, [], [], 200, false, none⟩).1 = .error .stop ∧
    (lexNext ⟨⟨[32], 1⟩, 1, 32, [], [], 200, false, none⟩).2.currentLexeme
      = none :=
  C7_blanks_comments [32] _ (by decide) (by decide)

/-! ## Claim C5: the hex-string scan, characterized -/

theorem restOf_fuel (s : LexState) (hI : TokInv s) :
    (restOf s).length + 1 ≤ s.length + 2 := by
  by_cases he : s.ended = true
  · simp [restOf, he]
  · have he' : s.ended = false := by revert he; cases s.ended <;> simp
    rw [restOf_head s he']
    have h1 := hI.1
    have h2 := hI.2.1 he'
    simp only [List.length_cons, List.length_drop]
    omega

theorem firstStop_blank {b : Nat} (l : List Nat) (hb : b ∈ BLANKS) :
    firstStop (b :: l) = firstStop l := by
  simp [firstStop, hb]

theorem firstStop_hex {b : Nat} (l : List Nat) (hb : b ∉ BLANKS)
    (hh : is_hex_digit b) : firstStop (b :: l) = firstStop l := by
  simp [firstStop, hb, hh]

theorem firstStop_stop {b : Nat} (l : List Nat) (hb : b ∉ BLANKS)
    (hh : ¬ is_hex_digit b) : firstStop (b :: l) = some b := by
  simp [firstStop, hb, hh]

theorem hexPrefix_blank {b : Nat} (l : List Nat) (hb : b ∈ BLANKS) :
    hexPrefix (b :: l) = hexPrefix l := by
  simp [hexPrefix, List.takeWhile_cons, hb]

theorem hexPrefix_hex {b : Nat} (l : List Nat) (hb : b ∉ BLANKS)
    (hh : is_hex_digit b) : hexPrefix (b :: l) = b :: hexPrefix l := by
  simp [hexPrefix, List.takeWhile_cons, hb, hh]

theorem hexPrefix_stop {b : Nat} (l : List Nat) (hb : b ∉ BLANKS)
    (hh : ¬ is_hex_digit b) : hexPrefix (b :: l) = [] := by
  simp [hexPrefix, List.takeWhile_cons, hb, hh]

/-- The hex-digit collection loop: it raises the end-of-sequence signal
when the input runs out before a stopping byte, and otherwise stops with
the first non-blank non-hex-digit byte in the lookahead, having collected
exactly the hex digits seen on the way. -/
theorem parseHex_run : ∀ (fuel : Nat) (buf : List Nat) (s : LexState),
    TokInv s → (restOf s).length + 1 ≤ fuel →
    ((firstStop (restOf s) = none →
        (parseHexLoop fuel buf s).1 = .error .stop) ∧
     ∀ b, firstStop (restOf s) = some b →
       ∃ s', parseHexLoop fuel buf s = (.ok (buf ++ hexPrefix (restOf s)), s') ∧
         s'.current = b ∧ s'.ended = false ∧ TokInv s') := by
  intro fuel
  induction fuel with
  | zero =>
    intro buf s _ hfuel
    omega
  | succ g ih =>
    intro buf s hI hfuel
    by_cases he : s.ended = true
    · have hc : s.current = 32 := hI.2.2 he
      have hro : restOf s = [] := by simp [restOf, he]
      constructor
      · intro _
        simp only [parseHexLoop]
        rw [if_pos (by rw [hc]; decide), advance_ended s he]
      · intro b hb
        rw [hro] at hb
        simp [firstStop] at hb
    · have he' : s.ended = false := by revert he; cases s.ended <;> simp
      rw [restOf_head s he'] at hfuel ⊢
      by_cases hbl : s.current ∈ BLANKS
      · obtain ⟨s1, ha, hI1, hrest1, _, _, _, _, _⟩ := advance_step_inv s hI he'
        rw [restOf_head s he', List.tail_cons] at hrest1
        have hfuel1 : (restOf s1).length + 1 ≤ g := by
          rw [hrest1]
          simp only [List.length_cons] at hfuel
          omega
        obtain ⟨ihn, ihs⟩ := ih buf s1 hI1 hfuel1
        rw [hrest1] at ihn ihs
        constructor
        · intro hn
          rw [firstStop_blank _ hbl] at hn
          simp only [parseHexLoop]
          rw [if_pos hbl, ha]
          exact ihn hn
        · intro b hb
          rw [firstStop_blank _ hbl] at hb
          obtain ⟨s', hs', hcur', hend', hI'⟩ := ihs b hb
          refine ⟨s', ?_, hcur', hend', hI'⟩
          simp only [parseHexLoop]
          rw [if_pos hbl, ha, hexPrefix_blank _ hbl]
          exact hs'
      · by_cases hhx : is_hex_digit s.current
        · obtain ⟨s1, ha, hI1, hrest1, _, _, _, _, _⟩ := advance_step_inv s hI he'
          rw [restOf_head s he', List.tail_cons] at hrest1
          have hfuel1 : (restOf s1).length + 1 ≤ g := by
            rw [hrest1]
            simp only [List.length_cons] at hfuel
            omega
          obtain ⟨ihn, ihs⟩ := ih (buf ++ [s.current]) s1 hI1 hfuel1
          rw [hrest1] at ihn ihs
          have hcond : ¬ (¬ is_hex_digit s.current = true) := by simp [hhx]
          constructor
          · intro hn
            rw [firstStop_hex _ hbl hhx] at hn
            simp only [parseHexLoop]
            rw [if_neg hbl, if_neg hcond, ha]
            exact ihn hn
          · intro b hb
            rw [firstStop_hex _ hbl hhx] at hb
            obtain ⟨s', hs', hcur', hend', hI'⟩ := ihs b hb
            refine ⟨s', ?_, hcur', hend', hI'⟩
            simp only [parseHexLoop]
            rw [if_neg hbl, if_neg hcond, ha, hexPrefix_hex _ hbl hhx]
            rw [show buf ++ (s.current :: hexPrefix
              (s.source.source.drop s.source.pos)) =
              (buf ++ [s.current]) ++ hexPrefix
              (s.source.source.drop s.source.pos) by simp]
            exact hs'
        · constructor
          · intro hn
            rw [firstStop_stop _ hbl hhx] at hn
            simp at hn
          · intro b hb
            rw [firstStop_stop _ hbl hhx] at hb
            injection hb with hb
            refine ⟨s, ?_, hb, he', hI⟩
            simp only [parseHexLoop]
            rw [if_neg hbl, if_pos hhx, hexPrefix_stop _ hbl hhx]
            simp

/-- Claim C5, amended: hex-string tokenization (entered on `<` not followed
by a second `<`) skips blanks and collects case-insensitive hex digits from
the bytes after the `<`; it raises a `PDFLexicalError` if and only if the
first byte that is neither a blank nor a hex digit exists in the buffer and
is not `>`; if the input ends before such a byte, the blank sentinel keeps
the loop spinning until `__advance` raises the end-of-sequence signal
`StopIteration` — not a lexical error.  On success the lexeme holds exactly
the collected hex digits. -/
theorem C5_hex_string_errors (s : LexState) (hI : TokInv s)
    (he : s.ended = false) :
    (firstStop (s.source.source.drop s.source.pos) = none →
        (parse_hexadecimal_string s).1 = .error .stop) ∧
    (∀ b, firstStop (s.source.source.drop s.source.pos) = some b →
        b ≠ CLOSE_ANGLE_BRACKET →
        (parse_hexadecimal_string s).1 = .error .lexical) ∧
    (firstStop (s.source.source.drop s.source.pos) = some CLOSE_ANGLE_BRACKET →
        ∃ s', parse_hexadecimal_string s =
          (.ok (.hexString (hexPrefix (s.source.source.drop s.source.pos))), s')) := by
  obtain ⟨s1, ha, hI1, hrest1, hsrc1, hlen1, _, _, _⟩ := advance_step_inv s hI he
  have hr1 : restOf s1 = s.source.source.drop s.source.pos := by
    rw [hrest1, restOf_head s he, List.tail_cons]
  have hfuel := restOf_fuel s1 hI1
  obtain ⟨hnone, hsome⟩ := parseHex_run (s1.length + 2) [] s1 hI1 hfuel
  rw [hr1] at hnone hsome
  refine ⟨?_, ?_, ?_⟩
  · intro hn
    have hst := hnone hn
    rcases hpe : parseHexLoop (s1.length + 2) [] s1 with ⟨r, sx⟩
    rw [hpe] at hst
    simp only at hst
    subst hst
    simp only [parse_hexadecimal_string, ha, hpe]
  · intro b hb hbne
    obtain ⟨s', hs', hcur', hend', hI'⟩ := hsome b hb
    simp only [parse_hexadecimal_string, ha, hs']
    rw [if_pos (by rw [hcur']; exact hbne)]
  · intro hb
    obtain ⟨s', hs', hcur', hend', hI'⟩ := hsome _ hb
    obtain ⟨s2, ha2, _, _, _, _, _, _, _⟩ := advance_step_inv s' hI' hend'
    refine ⟨s2, ?_⟩
    simp only [parse_hexadecimal_string, ha, hs']
    rw [if_neg (by rw [hcur']; simp), ha2]
    simp

/-- Witness for the amended C5 on `"<41"` (end of input: the signal is
`StopIteration`) and `"<4Z>"` (stopping byte `Z`: a lexical error). -/
theorem C5_witness :
    (parse_hexadecimal_string
      ⟨⟨[60, 52, 49], 1⟩, 3, 60, [], [], 200, false, none⟩).1 = .error .stop ∧
    (parse_hexadecimal_string
      ⟨⟨[60, 52, 90, 62], 1⟩, 4, 60, [], [], 200, false, none⟩).1
        = .error .lexical :=
  ⟨(C5_hex_string_errors _ ⟨rfl, fun _ => by decide, fun h => Bool.noConfusion h⟩
      rfl).1 (by decide),
   (C5_hex_string_errors _ ⟨rfl, fun _ => by decide, fun h => Bool.noConfusion h⟩
      rfl).2.1 90 (by decide) (by decide)⟩

/-! ## Claim C6: string-literal decoding, characterized -/

theorem cp1252Byte_none_iff (b : Nat) :
    cp1252Byte b = none ↔
      (b = 0x81 ∨ b = 0x8D ∨ b = 0x8F ∨ b = 0x90 ∨ b = 0x9D) := by
  unfold cp1252Byte
  by_cases h : b = 0x81 ∨ b = 0x8D ∨ b = 0x8F ∨ b = 0x90 ∨ b = 0x9D
  · rw [if_pos h]
    simp [h]
  · rw [if_neg h]
    simp [h]

theorem cp1252Decode_none_iff : ∀ l : List Nat,
    cp1252Decode l = none ↔
      ∃ b ∈ l, b = 0x81 ∨ b = 0x8D ∨ b = 0x8F ∨ b = 0x90 ∨ b = 0x9D := by
  intro l
  induction l with
  | nil => simp [cp1252Decode]
  | cons b rest ih =>
    simp only [cp1252Decode]
    cases hb : cp1252Byte b with
    | none =>
      simp only [true_iff]
      exact ⟨b, List.mem_cons_self b rest, (cp1252Byte_none_iff b).mp hb⟩
    | some c =>
      have hbnot : ¬(b = 0x81 ∨ b = 0x8D ∨ b = 0x8F ∨ b = 0x90 ∨ b = 0x9D) := by
        intro hbad
        rw [(cp1252Byte_none_iff b).mpr hbad] at hb
        cases hb
      rw [Option.map_eq_none', ih]
      constructor
      · rintro ⟨x, hx, hbad⟩
        exact ⟨x, List.mem_cons_of_mem b hx, hbad⟩
      · rintro ⟨x, hx, hbad⟩
        rcases List.mem_cons.mp hx with hx | hx
        · exact absurd hbad (hx ▸ hbnot)
        · exact ⟨x, hx, hbad⟩

/-- Claim C6, amended: the accumulated literal buffer is decoded by trying
UTF-8 first and falling back to code page 1252; the decode (and hence the
tokenization of the literal) fails for encoding reasons exactly when the
buffer is invalid UTF-8 AND contains one of the five bytes 0x81, 0x8D,
0x8F, 0x90, 0x9D that cp1252 leaves undefined.  In particular the
non-UTF-8 literal `"(\xE9)"` still tokenizes through the fallback. -/
theorem C6_string_decoding :
    (∀ buffer : List Nat, decodeLiteral buffer = none ↔
       (utf8Decode buffer = none ∧ ∃ b ∈ buffer,
         b = 0x81 ∨ b = 0x8D ∨ b = 0x8F ∨ b = 0x90 ∨ b = 0x9D)) ∧
    (lexNext (lexerInitD [40, 233, 41])).1 = .ok (.str [233]) := by
  constructor
  · intro buffer
    unfold decodeLiteral
    cases hu : utf8Decode buffer with
    | some r => simp [hu]
    | none => simp [hu, cp1252Decode_none_iff]
  · have h3 : decodeLiteral [233] = some [233] := by decide
    simp [lexerInitD, lexerInit, lexNext, remove_blanks, removeBlanksLoop,
      advance, peek, Seekable.ofBytes, Seekable.read, Seekable.seek,
      Seekable.tell, BLANKS, is_digit, LINE_FEED, CARRIAGE_RETURN,
      OPEN_PARENTHESIS, OPEN_ANGLE_BRACKET, FORWARD_SLASH, PERCENTAGE,
      POINT, PLUS, MINUS, parse_string_literal, parseStrLoop, octalRun,
      octalValue, STRING_ESCAPE_SEQUENCES, CLOSE_PARENTHESIS, BACK_SLASH, h3]

/-! ## Claims C1 and C10: the deferred stream reader -/

theorem read_at (B : List Nat) (sp L : Nat) (hL : 1 ≤ L)
    (hspL : sp + L ≤ B.length) :
    (⟨B, sp⟩ : Seekable).read (L : Int) = ((B.drop sp).take L, ⟨B, sp + L⟩) := by
  have hlt : sp < B.length := by omega
  by_cases hL1 : L = 1
  · subst hL1
    simp only [Seekable.read]
    rw [if_neg (by omega : ¬ sp = B.length)]
    rw [if_pos (by norm_num : ((1 : Nat) : Int) = 1)]
    rw [List.getD_eq_getElem B 0 hlt, List.drop_eq_getElem_cons hlt]
    exact rfl
  · have hne1 : ((L : Nat) : Int) ≠ 1 := by exact_mod_cast hL1
    simp only [Seekable.read]
    rw [if_neg (by omega : ¬ sp = B.length)]
    rw [if_neg hne1]
    rw [if_neg (by omega : ¬ ((L : Nat) : Int) ≤ 0)]
    have hlen : ((B.drop sp).take (((L : Nat) : Int)).toNat).length = L := by
      rw [Int.toNat_natCast]
      simp only [List.length_take, List.length_drop]
      omega
    rw [Int.toNat_natCast] at hlen ⊢
    simp only [Prod.mk.injEq, Seekable.mk.injEq, hlen]

/-- The full effect of invoking the deferred stream reader from a
non-ended state whose requested bytes lie inside the buffer: it returns
exactly those `L` bytes and restores the cursor position. -/
theorem read_stream_run (s : LexState) (sp L : Nat)
    (he : s.ended = false) (hpos : s.source.pos ≤ s.source.source.length)
    (hL : 1 ≤ L) (hspL : sp + L ≤ s.source.source.length) :
    (read_stream sp (L : Int) s).1 =
      .ok ((s.source.source.drop sp).take L) ∧
    (read_stream sp (L : Int) s).2.source.pos = s.source.pos := by
  have hseek : s.source.seek (sp : Int) 0 = ⟨s.source.source, sp⟩ :=
    Seekable.seek_abs s.source sp (by omega)
  have hread := read_at s.source.source sp L hL hspL
  unfold read_stream
  simp only [Seekable.tell, hseek, hread]
  set B := s.source.source with hB
  set s2 : LexState := { s with source := (⟨B, sp + L⟩ : Seekable) } with hs2
  have hs2e : s2.ended = false := he
  have hback : ∀ t : Seekable, t.source = B →
      (t.seek ((s.source.pos : Nat) : Int) 0).pos = s.source.pos := by
    intro t ht
    rw [Seekable.seek_abs t s.source.pos (by rw [ht]; exact hpos)]
  rcases Nat.lt_or_ge (sp + L) B.length with hlt2 | hge2
  · have hav := advance_lt s2 hs2e hlt2
    rcases ha : advance s2 with ⟨r, s3⟩
    rw [ha] at hav
    injection hav with h1 h2
    subst h1
    subst h2
    simp only [ha]
    by_cases hLF : B.getD (sp + L) 0 = LINE_FEED
    · rw [if_pos (by exact hLF)]
      set s3 : LexState := { s2 with
        source := (⟨B, sp + L + 1⟩ : Seekable),
        current := B.getD (sp + L) 0 } with hs3
      have hs3e : s3.ended = false := he
      rcases Nat.lt_or_ge (sp + L + 1) B.length with hlt3 | hge3
      · have hav2 := advance_lt s3 hs3e hlt3
        rcases ha2 : advance s3 with ⟨r2, s4⟩
        rw [ha2] at hav2
        injection hav2 with h3 h4
        subst h3
        subst h4
        simp only [ha2]
        exact ⟨by trivial, hback _ rfl⟩
      · have heq3 : s3.source.pos = s3.source.source.length := by
          show sp + L + 1 = B.length
          omega
        have hav2 := advance_eq_len s3 hs3e heq3
        rcases ha2 : advance s3 with ⟨r2, s4⟩
        rw [ha2] at hav2
        injection hav2 with h3 h4
        subst h3
        subst h4
        simp only [ha2]
        exact ⟨by trivial, hback _ rfl⟩
    · rw [if_neg (by exact hLF)]
      exact ⟨by trivial, hback _ rfl⟩
  · have heq2 : s2.source.pos = s2.source.source.length := by
      show sp + L = B.length
      omega
    have hav := advance_eq_len s2 hs2e heq2
    rcases ha : advance s2 with ⟨r, s3⟩
    rw [ha] at hav
    injection hav with h1 h2
    subst h1
    subst h2
    simp only [ha]
    rw [if_neg (by decide : ¬ (32 : Nat) = LINE_FEED)]
    exact ⟨by trivial, hback _ rfl⟩

/-! ## Symbolic evaluation of `__peek` and `__parse_literal` -/

theorem peek_state (i : Int) (s : LexState)
    (hpos : s.source.pos ≤ s.source.source.length) : (peek i s).2 = s := by
  unfold peek
  split
  · rfl
  · have hsrc : (((s.source.seek (i - 1) 1).read 1).2).source = s.source.source := by
      rw [Seekable.read_source, Seekable.seek_source]
    have h1 : ((((s.source.seek (i - 1) 1).read 1).2).seek
        ((s.source.tell : Nat) : Int) 0) = s.source := by
      rw [Seekable.seek_abs _ _ (by rw [hsrc]; exact hpos)]
      show (⟨(((s.source.seek (i - 1) 1).read 1).2).source,
        s.source.tell⟩ : Seekable) = s.source
      rw [hsrc]
      rfl
    rw [h1]

theorem peek_val (s : LexState) (i : Int) (m : Nat)
    (hlen : s.length = s.source.source.length)
    (hm : (s.source.pos : Int) + (i - 1) = (m : Int))
    (hin : m < s.source.source.length) :
    (peek i s).1 = some (s.source.source.getD m 0) := by
  unfold peek
  rw [if_neg (by simp only [Seekable.tell]; omega)]
  have hseek : s.source.seek (i - 1) 1 = ⟨s.source.source, m⟩ := by
    simp only [Seekable.seek]
    split_ifs <;>
      first
        | contradiction
        | (exfalso; omega)
        | exact congrArg (Seekable.mk s.source.source) (by omega)
  rw [hseek]
  have hread : (⟨s.source.source, m⟩ : Seekable).read 1 =
      ([s.source.source.getD m 0], ⟨s.source.source, m + 1⟩) := by
    simp only [Seekable.read]
    rw [if_neg (by omega : ¬ m = s.source.source.length)]
    norm_num
  rw [hread]
  rfl

/-- The peek-and-compare pass succeeds when every byte of the literal is
present at the current offset. -/
theorem parseLiteralCheck_match : ∀ (lit : List Nat) (i : Int) (m : Nat)
    (s : LexState), s.length = s.source.source.length →
    s.source.pos ≤ s.source.source.length →
    (s.source.pos : Int) + (i - 1) = (m : Int) →
    m + lit.length ≤ s.source.source.length →
    (∀ j, j < lit.length → s.source.source.getD (m + j) 0 = lit.getD j 0) →
    parseLiteralCheck lit i s = (true, s) := by
  intro lit
  induction lit with
  | nil => intro i m s _ _ _ _ _; rfl
  | cons l ls ih =>
    intro i m s hlen hpos hm hinlen hbytes
    have hmlt : m < s.source.source.length := by
      have := hinlen
      simp only [List.length_cons] at this
      omega
    have hv := peek_val s i m hlen hm hmlt
    have hst := peek_state i s hpos
    rcases hp : peek i s with ⟨v, t⟩
    rw [hp] at hv hst
    simp only at hv hst
    rw [hst] at hp
    subst hv
    have hl : s.source.source.getD m 0 = l := by
      have := hbytes 0 (by simp)
      simpa using this
    simp only [parseLiteralCheck, hp]
    rw [if_neg (by rw [hl]; simp)]
    apply ih (i + 1) (m + 1) s hlen hpos (by omega)
      (by simp only [List.length_cons] at hinlen; omega)
    intro j hj
    have := hbytes (j + 1) (by simp only [List.length_cons]; omega)
    rw [show m + 1 + j = m + (j + 1) from by omega]
    simpa using this

/-- `__parse_literal` fails without moving when the first byte differs. -/
theorem parse_literal_fail_head (lit0 : Nat) (rest : List Nat) (s : LexState)
    (k : Nat) (hlen : s.length = s.source.source.length)
    (hk : s.source.pos = k + 1) (hklen : k < s.source.source.length)
    (hne : s.source.source.getD k 0 ≠ lit0) :
    parse_literal (lit0 :: rest) s = (.ok false, s) := by
  have hpos : s.source.pos ≤ s.source.source.length := by omega
  have hv := peek_val s 0 k hlen (by omega) hklen
  have hst := peek_state 0 s hpos
  rcases hp : peek 0 s with ⟨v, t⟩
  rw [hp] at hv hst
  simp only at hv hst
  rw [hst] at hp
  subst hv
  unfold parse_literal
  simp only [parseLiteralCheck, hp]
  rw [if_pos (by simpa using hne)]

/-- `advanceN` over `n` in-buffer bytes: the cursor moves forward `n`
bytes and the lookahead holds the last byte consumed. -/
theorem advanceN_run : ∀ (n : Nat) (s : LexState), s.ended = false →
    1 ≤ n → s.source.pos + n ≤ s.source.source.length →
    advanceN n s = (.ok (), { s with
      source := ⟨s.source.source, s.source.pos + n⟩,
      current := s.source.source.getD (s.source.pos + n - 1) 0 }) := by
  intro n
  induction n with
  | zero => intro s _ h1 _; omega
  | succ m ih =>
    intro s he h1 hlen
    have hlt : s.source.pos < s.source.source.length := by omega
    have ha := advance_lt s he hlt
    rcases m.eq_zero_or_pos with hm | hm
    · subst hm
      show advanceN 1 s = _
      unfold advanceN
      simp only [ha]
      unfold advanceN
      rfl
    · show advanceN (m + 1) s = _
      unfold advanceN
      simp only [ha]
      set s1 : LexState := { s with
        source := ⟨s.source.source, s.source.pos + 1⟩,
        current := s.source.source.getD s.source.pos 0 } with hs1
      rw [ih s1 he hm (show s1.source.pos + m ≤ s1.source.source.length from by
        show s.source.pos + 1 + m ≤ s.source.source.length
        omega)]
      rw [Prod.mk.injEq]
      refine ⟨rfl, ?_⟩
      show ({ s with
        source := ⟨s.source.source, s.source.pos + 1 + m⟩,
        current := s.source.source.getD (s.source.pos + 1 + m - 1) 0 }
          : LexState) = _
      rw [show s.source.pos + 1 + m = s.source.pos + (m + 1) from by omega]

/-- `__parse_literal` consumes a fully matched literal, leaving the byte
after it in the lookahead. -/
theorem parse_literal_run (lit : List Nat) (s : LexState) (m : Nat)
    (he : s.ended = false) (hlen : s.length = s.source.source.length)
    (hpos : s.source.pos = m + 1) (hlit : 1 ≤ lit.length)
    (hinlen : m + lit.length < s.source.source.length)
    (hbytes : ∀ j, j < lit.length →
      s.source.source.getD (m + j) 0 = lit.getD j 0) :
    parse_literal lit s = (.ok true, { s with
      source := ⟨s.source.source, m + 1 + lit.length⟩,
      current := s.source.source.getD (m + lit.length) 0 }) := by
  have hchk := parseLiteralCheck_match lit 0 m s hlen (by omega) (by omega)
    (by omega) hbytes
  unfold parse_literal
  simp only [hchk, advanceN_run lit.length s he hlit (by omega), hpos]
  rw [Prod.mk.injEq]
  refine ⟨rfl, ?_⟩
  rw [show m + 1 + lit.length - 1 = m + lit.length from by omega]

/-- Tokenizing at a `stream` keyword: the emitted lexeme is the deferred
reader bound to the byte offset just after the optional end-of-line marker
(line-feed case and carriage-return/line-feed case). -/
theorem lexNext_stream (s1 : LexState) (p : Nat)
    (he : s1.ended = false) (hbuf : s1.lexemesBuffer = [])
    (hlen : s1.length = s1.source.source.length)
    (hpos : s1.source.pos = p + 1) (hcur : s1.current = 115)
    (hbytes : ∀ j, j < 6 → s1.source.source.getD (p + j) 0 =
      [115, 116, 114, 101, 97, 109].getD j 0)
    (hplen : p + 6 < s1.source.source.length) :
    (s1.source.source.getD (p + 6) 0 = LINE_FEED →
      (lexNext s1).1 = .ok (.streamReader (p + 7))) ∧
    (s1.source.source.getD (p + 6) 0 = CARRIAGE_RETURN →
      s1.source.source.getD (p + 7) 0 = LINE_FEED →
      p + 7 < s1.source.source.length →
      (lexNext s1).1 = .ok (.streamReader (p + 8))) := by
  have hposle : s1.source.pos ≤ s1.source.source.length := by omega
  have h115 : s1.source.source.getD p 0 = 115 := by
    simpa using hbytes 0 (by norm_num)
  have hrb : remove_blanks s1 = (.ok (), s1) := by
    unfold remove_blanks
    rw [show s1.length + 2 = (s1.length + 1) + 1 from rfl]
    simp only [removeBlanksLoop]
    rw [if_neg (by rw [hcur]; decide), if_neg (by rw [hcur]; decide)]
  have ht : parse_literal [116, 114, 117, 101] s1 = (.ok false, s1) :=
    parse_literal_fail_head 116 _ s1 p hlen hpos (by omega)
      (by rw [h115]; decide)
  have hf : parse_literal [102, 97, 108, 115, 101] s1 = (.ok false, s1) :=
    parse_literal_fail_head 102 _ s1 p hlen hpos (by omega)
      (by rw [h115]; decide)
  have hstm : parse_literal [115, 116, 114, 101, 97, 109] s1 =
      (.ok true, { s1 with
        source := ⟨s1.source.source, p + 1 + 6⟩,
        current := s1.source.source.getD (p + 6) 0 }) := by
    have := parse_literal_run [115, 116, 114, 101, 97, 109] s1 p he hlen hpos
      (by norm_num) (by simpa using hplen)
      (by intro j hj; exact hbytes j (by simpa using hj))
    simpa using this
  have hpk2 : (peek 1 s1).2 = s1 := peek_state 1 s1 hposle
  rcases hpk : peek 1 s1 with ⟨p1, t⟩
  rw [hpk] at hpk2
  simp only at hpk2
  rw [hpk2] at hpk
  set sAfter : LexState := { s1 with
    source := (⟨s1.source.source, p + 1 + 6⟩ : Seekable),
    current := s1.source.source.getD (p + 6) 0 } with hsA
  constructor
  · intro hLF
    simp only [lexNext, hbuf, hrb]
    rw [if_neg (by rw [hcur]; decide)]
    simp only [hpk]
    rw [if_neg (by intro h; rw [hcur] at h; exact absurd h.1 (by decide))]
    rw [if_neg (by rw [hcur]; decide)]
    rw [if_neg (by rw [hcur]; decide)]
    simp only [ht, hf, hstm]
    rw [if_neg (show ¬ sAfter.current = CARRIAGE_RETURN from by
      show ¬ s1.source.source.getD (p + 6) 0 = CARRIAGE_RETURN
      rw [hLF]
      decide)]
    rfl
  · intro hCR hLF2 hplen2
    simp only [lexNext, hbuf, hrb]
    rw [if_neg (by rw [hcur]; decide)]
    simp only [hpk]
    rw [if_neg (by intro h; rw [hcur] at h; exact absurd h.1 (by decide))]
    rw [if_neg (by rw [hcur]; decide)]
    rw [if_neg (by rw [hcur]; decide)]
    simp only [ht, hf, hstm]
    rw [if_pos (show sAfter.current = CARRIAGE_RETURN from hCR)]
    have hADV := advance_lt sAfter (show sAfter.ended = false from he)
      (show sAfter.source.pos < sAfter.source.source.length from by
        show p + 1 + 6 < s1.source.source.length
        omega)
    rw [hADV]
    have hcur7 : sAfter.source.source.getD sAfter.source.pos 0 = LINE_FEED := by
      show s1.source.source.getD (p + 1 + 6) 0 = LINE_FEED
      rw [show p + 1 + 6 = p + 7 from by omega]
      exact hLF2
    simp only [ne_eq, hcur7, eq_self_iff_true, not_true, if_false]
    rfl

/-! ## Claim C1 (deferred stream reader): amended theorem -/

/-- C1 (amended): after the `stream` keyword the lexer emits a deferred
reader bound to the byte offset just past the end-of-line marker (line
feed, or carriage return + line feed); invoking the reader for `L ≥ 1`
bytes lying inside the buffer from any non-ended state returns exactly
those `L` bytes from the bound offset and restores the cursor position,
while `L = 0` returns the entire remainder of the buffer from that offset;
on `"stream\nABCDE\nendstream"` reading 5 bytes returns `"ABCDE"`. -/
theorem C1_deferred_stream_reader :
    (∀ s1 p, s1.ended = false → s1.lexemesBuffer = [] →
      s1.length = s1.source.source.length →
      s1.source.pos = p + 1 → s1.current = 115 →
      (∀ j, j < 6 → s1.source.source.getD (p + j) 0 =
        [115, 116, 114, 101, 97, 109].getD j 0) →
      p + 6 < s1.source.source.length →
      ((s1.source.source.getD (p + 6) 0 = LINE_FEED →
          (lexNext s1).1 = .ok (.streamReader (p + 7))) ∧
        (s1.source.source.getD (p + 6) 0 = CARRIAGE_RETURN →
          s1.source.source.getD (p + 7) 0 = LINE_FEED →
          p + 7 < s1.source.source.length →
          (lexNext s1).1 = .ok (.streamReader (p + 8))))) ∧
    (∀ (s : LexState) (sp L : Nat), s.ended = false →
      s.source.pos ≤ s.source.source.length →
      1 ≤ L → sp + L ≤ s.source.source.length →
      (read_stream sp (L : Int) s).1 =
        .ok ((s.source.source.drop sp).take L) ∧
      (read_stream sp (L : Int) s).2.source.pos = s.source.pos) ∧
    (read_stream 7 0 sStream).1 = .ok (streamExample.drop 7) ∧
    (read_stream 7 5 sStream).1 = .ok [65, 66, 67, 68, 69] := by
  refine ⟨?_, ?_, ?_, ?_⟩
  · intro s1 p he hbuf hlen hpos hcur hbytes hplen
    exact lexNext_stream s1 p he hbuf hlen hpos hcur hbytes hplen
  · intro s sp L he hpos hL hspL
    exact read_stream_run s sp L he hpos hL hspL
  · simp [read_stream, advance, Seekable.read, Seekable.seek, Seekable.tell,
      LINE_FEED, streamExample, sStream]
  · simp [read_stream, advance, Seekable.read, Seekable.seek, Seekable.tell,
      LINE_FEED, streamExample, sStream]

/-- Witness for C1: the general conjuncts applied on the
`"stream\nABCDE\nendstream"` example. -/
theorem C1_witness :
    (lexNext (lexerInitD streamExample)).1 = .ok (.streamReader 7) ∧
    (read_stream 7 5 sStream).1 =
      .ok ((sStream.source.source.drop 7).take 5) := by
  constructor
  · exact (C1_deferred_stream_reader.1 (lexerInitD streamExample) 0 (by decide)
      (by decide) (by decide) (by decide) (by decide) (by decide) (by decide)).1
      (by decide)
  · exact (C1_deferred_stream_reader.2.1 sStream 7 5 (by decide) (by decide)
      (by decide) (by decide)).1

/-! ## Claim C2 (move_to / move_back backtracking): amended theorem -/

/-- C2 (amended): from any state satisfying the lookahead invariant, when
the tokenization triggered by `move_to(p)` leaves the end flag clear,
`move_back()` pops the saved pair and restores the current lexeme, the
cursor position, the one-byte lookahead and the history exactly; once the
end flag is set, `move_back` instead raises the end-of-sequence signal
from its lookahead re-prime, leaving the cursor one byte before the saved
position. -/
theorem C2_move_to_move_back :
    (∀ (s : LexState) (p : Int), s.ended = false → 1 ≤ s.source.pos →
      s.source.pos ≤ s.source.source.length →
      s.current = s.source.source.getD (s.source.pos - 1) 0 →
      (move_at_position p s).2.ended = false →
      (move_back (move_at_position p s).2).1 = .ok () ∧
      (move_back (move_at_position p s).2).2.currentLexeme = s.currentLexeme ∧
      (move_back (move_at_position p s).2).2.source.pos = s.source.pos ∧
      (move_back (move_at_position p s).2).2.current = s.current ∧
      (move_back (move_at_position p s).2).2.movesHistory = s.movesHistory) ∧
    (∀ (t : LexState) (pl : Option Lexeme) (pp : Nat)
        (rest : List (Option Lexeme × Nat)),
      t.ended = true → t.movesHistory = (pl, pp) :: rest →
      pp - 1 ≤ t.source.source.length →
      (move_back t).1 = .error .stop ∧
      (move_back t).2.source.pos = pp - 1) := by
  constructor
  · intro s p he hp1 hple hcur hend
    have hcl : current_lexeme s = (.ok s.currentLexeme, s) := by
      simp [current_lexeme, he]
    set s3 : LexState := { s with
      movesHistory := (s.currentLexeme, s.source.pos) :: s.movesHistory,
      source := s.source.seek p 0 } with hs3
    have hmv : move_at_position p s =
        match advance s3 with
        | (.error e, s') => (.error e, s')
        | (.ok _, s4) => lexNext s4 := by
      rw [hs3]
      simp only [move_at_position, hcl, Seekable.tell]
    have hs3le : s3.source.pos ≤ s3.source.source.length := by
      show (s.source.seek p 0).pos ≤ (s.source.seek p 0).source.length
      rw [Seekable.seek_source]
      exact Seekable.seek_pos_le s.source p 0
    obtain ⟨s4, ha4, -, hsrc4, -, hmh4, -, -, -, -, -, -, -⟩ :=
      advance_step s3 (show s3.ended = false from he) hs3le
    have hmps : move_at_position p s = lexNext s4 := by
      rw [hmv, ha4]
    rw [hmps] at hend ⊢
    rcases hlx : lexNext s4 with ⟨rl, t⟩
    rw [hlx] at hend
    have hpres : Pres s4 t := pres_of_pair (pres_lexNext s4) hlx
    have hsrc_t : t.source.source = s.source.source := by
      rw [hpres.1, hsrc4, hs3]
      exact Seekable.seek_source s.source p 0
    have hmh_t : t.movesHistory =
        (s.currentLexeme, s.source.pos) :: s.movesHistory := by
      rw [hpres.2.2.1, hmh4, hs3]
    have hseekt : t.source.seek ((s.source.pos : Int) - 1) 0 =
        { t.source with pos := s.source.pos - 1 } := by
      have hc : ((s.source.pos : Int) - 1) = ((s.source.pos - 1 : Nat) : Int) := by
        omega
      rw [hc]
      exact Seekable.seek_abs t.source (s.source.pos - 1) (by rw [hsrc_t]; omega)
    simp only [move_back, hmh_t, hseekt]
    have hXe : ({ t with
        movesHistory := s.movesHistory,
        currentLexeme := s.currentLexeme,
        source := { t.source with pos := s.source.pos - 1 } } : LexState).ended
          = false := hend
    have hXlt : ({ t with
        movesHistory := s.movesHistory,
        currentLexeme := s.currentLexeme,
        source := { t.source with pos := s.source.pos - 1 } } : LexState).source.pos
        < ({ t with
            movesHistory := s.movesHistory,
            currentLexeme := s.currentLexeme,
            source := { t.source with pos := s.source.pos - 1 } }
          : LexState).source.source.length := by
      show s.source.pos - 1 < t.source.source.length
      rw [hsrc_t]
      omega
    rw [advance_lt _ hXe hXlt]
    refine ⟨rfl, rfl, ?_, ?_, rfl⟩
    · show s.source.pos - 1 + 1 = s.source.pos
      omega
    · show t.source.source.getD (s.source.pos - 1) 0 = s.current
      rw [hsrc_t, hcur]
  · intro t pl pp rest hteq hmh hpple
    have hseekt : t.source.seek ((pp : Int) - 1) 0 =
        { t.source with pos := pp - 1 } := by
      have hc : ((pp : Int) - 1) = ((pp - 1 : Nat) : Int) ∨
          ((pp : Int) - 1 < 0 ∧ pp - 1 = 0) := by omega
      rcases hc with hc | ⟨hneg, hz⟩
      · rw [hc]
        exact Seekable.seek_abs t.source (pp - 1) hpple
      · rw [hz]
        simp [Seekable.seek, hneg]
        split_ifs <;> omega
    simp only [move_back, hmh, hseekt]
    have hXe : ({ t with
        movesHistory := rest,
        currentLexeme := pl,
        source := { t.source with pos := pp - 1 } } : LexState).ended = true :=
      hteq
    rw [advance_ended _ hXe]
    exact ⟨rfl, rfl⟩

/-- Witness for C2 on `"1 1 2"` after the first lexeme (restore case) and
on an ended state with one saved move (end-of-sequence case). -/
theorem C2_witness :
    ((move_back (move_at_position 2 sRestore).2).1 = .ok () ∧
     (move_back (move_at_position 2 sRestore).2).2.currentLexeme =
       sRestore.currentLexeme ∧
     (move_back (move_at_position 2 sRestore).2).2.source.pos =
       sRestore.source.pos ∧
     (move_back (move_at_position 2 sRestore).2).2.current = sRestore.current ∧
     (move_back (move_at_position 2 sRestore).2).2.movesHistory =
       sRestore.movesHistory) ∧
    ((move_back ⟨⟨[49], 1⟩, 1, 32, [], [(some (.int 1), 1)], 200, true,
        some (.int 1)⟩).1 = .error .stop) := by
  constructor
  · exact C2_move_to_move_back.1 sRestore 2 (by decide) (by decide) (by decide)
      (by decide) (by decide)
  · exact (C2_move_to_move_back.2 _ (some (.int 1)) 1 [] (by decide) rfl
      (by decide)).1

/-! ## Claim C8 (restart via move_to): amended theorem -/

/-- C8 (amended): explicit repositioning restarts tokenization only while
the end flag is clear: once the end-of-sequence signal has been raised,
`move_to(p)` raises it again immediately for every target position,
because its first step reads the `current_lexeme` property whose guard
checks the flag; from a non-ended state it does restart tokenization (on
`"1 2"` after both lexemes were pulled short of the end, `move_to 0`
re-tokenizes the leading `1`). -/
theorem C8_restart :
    (∀ (s : LexState) (p : Int), s.ended = true →
      move_at_position p s = (.error .stop, s)) ∧
    (move_at_position 0 sOneTwo).1 = .ok (.int 1) := by
  constructor
  · intro s p h
    simp [move_at_position, current_lexeme, h]
  · simp [move_at_position, current_lexeme, lexNext, remove_blanks,
      removeBlanksLoop, advance, peek, Seekable.read, Seekable.seek,
      Seekable.tell, BLANKS, is_digit, LINE_FEED, CARRIAGE_RETURN,
      OPEN_PARENTHESIS, OPEN_ANGLE_BRACKET, FORWARD_SLASH, PERCENTAGE,
      POINT, PLUS, MINUS, parse_number, digitRun, bytesToInt, sOneTwo]

/-- Witness for C8: after the end-of-sequence signal on `"1"`, `move_to 0`
raises it again instead of restarting. -/
theorem C8_witness : move_at_position 0 sEnded = (.error .stop, sEnded) :=
  C8_restart.1 sEnded 0 (by decide)

/-! ## Claim C10 (frame effect of the deferred reader): theorem -/

/-- C10: invoking the deferred stream reader restores only the cursor's
absolute position; the one-byte lookahead is overwritten with a byte read
near the end of the stream body (on the example, `e` of `endstream`
replaces the line feed), the `ended` flag is set when that read reaches
the end of the buffer, and hence the full tokenizer state after the call
differs from the state before it even though `tell()` is unchanged. -/
theorem C10_reader_frame_effect :
    (∀ (s : LexState) (sp L : Nat), s.ended = false →
      s.source.pos ≤ s.source.source.length → 1 ≤ L →
      sp + L ≤ s.source.source.length →
      (read_stream sp (L : Int) s).2.source.pos = s.source.pos) ∧
    ((read_stream 7 5 sStream).2.source.pos = sStream.source.pos ∧
     (read_stream 7 5 sStream).2.current = 101 ∧ sStream.current = 10 ∧
     (read_stream 7 5 sStream).2 ≠ sStream) ∧
    ((read_stream 7 2 sShortStream).2.ended = true ∧
     sShortStream.ended = false ∧
     (read_stream 7 2 sShortStream).2.source.pos = sShortStream.source.pos) := by
  refine ⟨?_, ?_, ?_⟩
  · intro s sp L he hpos hL hspL
    exact (read_stream_run s sp L he hpos hL hspL).2
  · refine ⟨?_, ?_, rfl, ?_⟩ <;>
      simp [read_stream, advance, Seekable.read, Seekable.seek, Seekable.tell,
        LINE_FEED, streamExample, sStream]
  · refine ⟨?_, rfl, ?_⟩ <;>
      simp [read_stream, advance, Seekable.read, Seekable.seek, Seekable.tell,
        LINE_FEED, shortStreamExample, sShortStream]

/-- Witness for C10: the cursor-restoration conjunct applied on the
`"stream\nABCDE\nendstream"` example. -/
theorem C10_witness :
    (read_stream 7 5 sStream).2.source.pos = sStream.source.pos :=
  C10_reader_frame_effect.1 sStream 7 5 (by decide) (by decide) (by decide)
    (by decide)
